import Mathlib

/-!
# Verification of the Quip learning-map converter (`generate_yaml.py`)

A shallow embedding of the single source file `src/generate_yaml.py` and
proofs about it.  The program is a linear pipeline
`argv → token → fetch → HTML parse → YAML dump`; the core is the class
`QuipHTMLToYamlParser(HTMLParser)`, an event consumer over tag-open,
tag-close and text events.

Modelling conventions:
* Python dicts with a fixed key set become structures; the dynamically
  created keys (`"description"`, `"columns"`, `"items"`, and the key
  `"steps"` of the output dict) become `Option` fields, where `none`
  means the key is absent.  An `Item` is an open string-to-string dict,
  modelled as an association list in insertion order (Python dicts
  preserve insertion order; assigning to an existing key keeps its slot).
* `data = raw.encode("utf-8")` is a lossless re-encoding of the text;
  we model text as Lean `String` and the encoding as the identity.
* Python exceptions (`IndexError` on `pop` from an empty list,
  `AttributeError` on a `self.current_*` attribute that was never
  assigned, `KeyError` on a missing dict key) become an `Except` error
  result; each has its own constructor.
* The back-references `current_step` / `current_column` / `current_item`
  hold live references into the output structure; since the owning lists
  are append-only, we model them as index paths into the output.  A path
  that does not resolve (impossible for reachable states, since lists
  never shrink) is mapped to the `badPath` error.
* The open-tag stack `current_tags` is kept with the innermost
  (most recently opened) tag at the *head* of the list, so Python's
  `append`/`pop`/`[-1]` become `cons`/`tail`/`head?`;
  `"span" in self.current_tags` is plain list membership, which does not
  depend on the orientation.
-/

namespace GenYaml

/-- `self.state`: one of `"title"`, `"step"`, `"column"`, `"item"`. -/
inductive Mode
  | title
  | step
  | column
  | item
deriving DecidableEq, Repr

/-- An `Item` dict: dynamic `key → value` string mapping in insertion order. -/
abbrev Item := List (String × String)

/-- A column dict: `{"title": ..}` plus the lazily created `"items"` key. -/
structure Column where
  title : String
  items : Option (List Item)
deriving DecidableEq, Repr

/-- A step dict: `{"navtitle": .., "title": ..}` plus the lazily created
`"description"` and `"columns"` keys. -/
structure Step where
  navtitle : String
  title : String
  description : Option String
  columns : Option (List Column)
deriving DecidableEq, Repr

/-- `self.output`.  `steps` is `Option` so that presence of the `"steps"`
key is observable; `__init__` creates it (as `some []`). -/
structure Output where
  title : String
  description : String
  steps : Option (List Step)
deriving DecidableEq, Repr

/-- The parser state: output under construction, open-tag stack, mode, and
the `current_*` back-references (index paths; `none` = attribute never
assigned). -/
structure PState where
  output : Output
  currentTags : List String
  state : Mode
  currentStep : Option Nat
  currentColumn : Option (Nat × Nat)
  currentItem : Option (Nat × Nat × Nat)
  currentKey : Option String
deriving DecidableEq, Repr

/-- The three parse-event kinds fed to the handlers by `HTMLParser`. -/
inductive Event
  | tagOpen (t : String)
  | tagClose (t : String)
  | text (s : String)
deriving DecidableEq, Repr

/-- Fatal Python exceptions the handlers can raise. -/
inductive Err
  | popEmpty
  | attrError (field : String)
  | keyError
  | badPath
deriving DecidableEq, Repr

/-- `__init__`: `output = {"title": "", "description": "", "steps": []}`,
`current_tags = []`, `state = "title"`; no `current_*` attribute exists yet. -/
def initState : PState :=
  { output := { title := "", description := "", steps := some [] }
    currentTags := []
    state := Mode.title
    currentStep := none
    currentColumn := none
    currentItem := none
    currentKey := none }

/-! ## Small list/dict helpers -/

/-- Update the element at index `n` (no-op when out of range). -/
def updAt {α : Type} (l : List α) (n : Nat) (f : α → α) : List α :=
  match l, n with
  | [], _ => []
  | a :: rest, 0 => f a :: rest
  | a :: rest, n + 1 => a :: updAt rest n f

/-- First-occurrence lookup in an association list (Python `d[k]`). -/
def lookupKV (it : Item) (k : String) : Option String :=
  match it with
  | [] => none
  | (k', v) :: rest => if k' = k then some v else lookupKV rest k

/-- Python `d[k] = v`: overwrite in place if present, else append. -/
def setKV (it : Item) (k v : String) : Item :=
  match it with
  | [] => [(k, v)]
  | (k', v') :: rest => if k' = k then (k', v) :: rest else (k', v') :: setKV rest k v

/-- Python whitespace for `str.strip()`: space, `\t`, `\n`, `\r`, `\v`, `\f`. -/
def pyWS (c : Char) : Bool :=
  c = ' ' ∨ c = '\t' ∨ c = '\n' ∨ c = '\r' ∨ c = Char.ofNat 11 ∨ c = Char.ofNat 12

/-- Python `str.strip()`: drop leading and trailing whitespace. -/
def pyStrip (s : String) : String :=
  (((s.toList.dropWhile pyWS).reverse.dropWhile pyWS).reverse).asString

/-- A `\w` character of the pattern (ASCII word characters; the documents
this tool consumes use ASCII keys such as `title`, `icon`, `url`). -/
def wordChar (c : Char) : Bool := c.isAlphanum || c = '_'

/-- `re.compile("(\\w+):(.+)").match(data)` on a character list.
`match` anchors at the start only.  `(\w+)` greedily takes the maximal
leading word-character run (no backtracking can help, since `:` is not a
word character), then a literal `:` must follow, then `(.+)` takes at
least one and then all further characters up to a newline (`.` does not
match `\n`).  Returns the two groups on success. -/
def itemMatchL (cs : List Char) : Option (List Char × List Char) :=
  let g1 := cs.takeWhile wordChar
  if g1.isEmpty then none
  else
    match cs.drop g1.length with
    | ':' :: rest =>
      match rest with
      | [] => none
      | c :: _ => if c = '\n' then none else some (g1, rest.takeWhile (fun c => c ≠ '\n'))
    | _ => none

/-- `QuipHTMLToYamlParser.item_regex.match(data)` as `(group(1), group(2))`. -/
def itemMatch (s : String) : Option (String × String) :=
  (itemMatchL s.toList).map (fun g => (g.1.asString, g.2.asString))

/-! ## Paths into the output structure -/

/-- The steps list (`[]` when the `"steps"` key is absent). -/
def curSteps (st : PState) : List Step := st.output.steps.getD []

/-- Resolve a step index. -/
def getStepAt (o : Output) (i : Nat) : Option Step := (o.steps.getD [])[i]?

/-- Resolve a (step, column) path. -/
def getColumnAt (o : Output) (i j : Nat) : Option Column :=
  match getStepAt o i with
  | none => none
  | some s => (s.columns.getD [])[j]?

/-- Resolve a (step, column, item) path. -/
def getItemAt (o : Output) (p : Nat × Nat × Nat) : Option Item :=
  match getColumnAt o p.1 p.2.1 with
  | none => none
  | some c => (c.items.getD [])[p.2.2]?

/-- Mutate the step a back-reference points to. -/
def modifyStep (o : Output) (i : Nat) (f : Step → Step) : Output :=
  { o with steps := o.steps.map (fun l => updAt l i f) }

/-- Mutate the column a back-reference points to. -/
def modifyColumn (o : Output) (i j : Nat) (f : Column → Column) : Output :=
  modifyStep o i (fun s => { s with columns := s.columns.map (fun l => updAt l j f) })

/-- Mutate the item a back-reference points to. -/
def modifyItemAt (o : Output) (p : Nat × Nat × Nat) (f : Item → Item) : Output :=
  modifyColumn o p.1 p.2.1 (fun c => { c with items := c.items.map (fun l => updAt l p.2.2 f) })

/-! ## The event handlers -/

/-- `handle_starttag`: push the tag; on `<ul>` in `"column"`/`"item"` mode,
switch to `"item"` mode, lazily create `current_column["items"]` (the
Python guard `if not ...get("items", None)` also treats an empty list as
absent, so the base list is `items.getD []`), and append a fresh empty
item, which becomes `current_item`. -/
def handle_starttag (st : PState) (tag : String) : Except Err PState :=
  let st := { st with currentTags := tag :: st.currentTags }
  if tag = "ul" ∧ (st.state = Mode.column ∨ st.state = Mode.item) then
    match st.currentColumn with
    | none => .error (.attrError "current_column")
    | some (i, j) =>
      match getColumnAt st.output i j with
      | none => .error .badPath
      | some col =>
        let base := col.items.getD []
        .ok { st with
              state := Mode.item
              output := modifyColumn st.output i j (fun c => { c with items := some (base ++ [([] : Item)]) })
              currentItem := some (i, j, base.length) }
  else .ok st

/-- `handle_endtag`: `self.current_tags.pop()`; `IndexError` when empty. -/
def handle_endtag (st : PState) (_tag : String) : Except Err PState :=
  match st.currentTags with
  | [] => .error .popEmpty
  | _ :: rest => .ok { st with currentTags := rest }

/-- `if current_tag == "h1" and self.state == "title": self.output["title"] = data`
(the also-assigned `self.defining_steps` flag is never read and is omitted). -/
def dIf1 (tag data : String) (st : PState) : PState :=
  if tag = "h1" ∧ st.state = Mode.title then
    { st with output := { st.output with title := data } }
  else st

/-- `if current_tag == "p" and self.state == "title": self.output["description"] += data + "\n"`. -/
def dIf2 (tag data : String) (st : PState) : PState :=
  if tag = "p" ∧ st.state = Mode.title then
    { st with output := { st.output with description := st.output.description ++ data ++ "\n" } }
  else st

/-- `if current_tag == "h2":` switch to `"step"` mode, build
`{"navtitle": data, "title": data}`, append it to `output["steps"]`
(`KeyError` if the key were absent — it never is) and make it `current_step`. -/
def dIf3 (tag data : String) (st : PState) : Except Err PState :=
  if tag = "h2" then
    match st.output.steps with
    | none => .error .keyError
    | some l =>
      let newStep : Step := { navtitle := data, title := data, description := none, columns := none }
      .ok { st with
            state := Mode.step
            output := { st.output with steps := some (l ++ [newStep]) }
            currentStep := some l.length }
  else .ok st

/-- `if current_tag == "blockquote" and self.state == "step": self.current_step["title"] = data`. -/
def dIf4 (tag data : String) (st : PState) : Except Err PState :=
  if tag = "blockquote" ∧ st.state = Mode.step then
    match st.currentStep with
    | none => .error (.attrError "current_step")
    | some i => .ok { st with output := modifyStep st.output i (fun s => { s with title := data }) }
  else .ok st

/-- `if current_tag == "p" and self.state == "step":` lazily create
`current_step["description"]` (empty string also counts as absent) and
append `data + "\n"`. -/
def dIf5 (tag data : String) (st : PState) : Except Err PState :=
  if tag = "p" ∧ st.state = Mode.step then
    match st.currentStep with
    | none => .error (.attrError "current_step")
    | some i =>
      .ok { st with output := modifyStep st.output i (fun s =>
              { s with description := some ((s.description.getD "") ++ data ++ "\n") }) }
  else .ok st

/-- `if current_tag == "h3" and self.state == "step":` switch to `"column"`
mode, lazily create `current_step["columns"]` (empty list counts as
absent), append `{"title": data}` and make it `current_column`. -/
def dIf6 (tag data : String) (st : PState) : Except Err PState :=
  if tag = "h3" ∧ st.state = Mode.step then
    match st.currentStep with
    | none => .error (.attrError "current_step")
    | some i =>
      match getStepAt st.output i with
      | none => .error .badPath
      | some s =>
        let base := s.columns.getD []
        let newCol : Column := { title := data, items := none }
        .ok { st with
              state := Mode.column
              output := modifyStep st.output i (fun s' => { s' with columns := some (base ++ [newCol]) })
              currentColumn := some (i, base.length) }
  else .ok st

/-- The final `if current_tag == "span" and self.state == "item": ... elif
"span" in self.current_tags: ...` of `handle_data`.  In the first branch a
regex match sets `current_key` and `current_item[key] = value` (both
groups stripped); a failed match does nothing.  The `elif` belongs to the
*outer* `if`, so it runs whenever the text's innermost tag is not a span
in item mode but some span is still open, and performs
`self.current_item[self.current_key] += data` (`AttributeError` when
either attribute was never assigned, `KeyError` when the key is not in
the item). -/
def dIf7 (tag data : String) (st : PState) : Except Err PState :=
  if tag = "span" ∧ st.state = Mode.item then
    match itemMatch data with
    | some g =>
      let key := pyStrip g.1
      let value := pyStrip g.2
      match st.currentItem with
      | none => .error (.attrError "current_item")
      | some p =>
        match getItemAt st.output p with
        | none => .error .badPath
        | some _it =>
          .ok { st with
                currentKey := some key
                output := modifyItemAt st.output p (fun it => setKV it key value) }
    | none => .ok st
  else if "span" ∈ st.currentTags then
    match st.currentItem with
    | none => .error (.attrError "current_item")
    | some p =>
      match st.currentKey with
      | none => .error (.attrError "current_key")
      | some k =>
        match getItemAt st.output p with
        | none => .error .badPath
        | some it =>
          match lookupKV it k with
          | none => .error .keyError
          | some v =>
            .ok { st with output := modifyItemAt st.output p (fun it' => setKV it' k (v ++ data)) }
  else .ok st

/-- `handle_data`: return if no tag is open, else run the sequential `if`
chain against `current_tag = self.current_tags[-1]`. -/
def handle_data (st : PState) (data : String) : Except Err PState :=
  match st.currentTags with
  | [] => .ok st
  | tag :: _ =>
    match dIf3 tag data (dIf2 tag data (dIf1 tag data st)) with
    | .error e => .error e
    | .ok st3 =>
      match dIf4 tag data st3 with
      | .error e => .error e
      | .ok st4 =>
        match dIf5 tag data st4 with
        | .error e => .error e
        | .ok st5 =>
          match dIf6 tag data st5 with
          | .error e => .error e
          | .ok st6 => dIf7 tag data st6

/-- Dispatch one parse event to its handler. -/
def stepEvent (st : PState) : Event → Except Err PState
  | .tagOpen t => handle_starttag st t
  | .tagClose t => handle_endtag st t
  | .text s => handle_data st s

/-- Run the parser from a given state over a list of events. -/
def runFrom (st : PState) : List Event → Except Err PState
  | [] => .ok st
  | e :: es =>
    match stepEvent st e with
    | .ok st' => runFrom st' es
    | .error err => .error err

/-- `parser = QuipHTMLToYamlParser(); parser.feed(html)`: run from the
initial state over the document's event stream. -/
def runEvents (es : List Event) : Except Err PState := runFrom initState es

/-! ## Credential resolution (`get_token`) and CLI argument handling -/

/-- A site entry of `.quiprc`: a JSON object with string fields
(`accessToken` among them); `[]` is an empty object, which is falsy. -/
abbrev SiteConf := List (String × String)

/-- Exceptions `get_token` can raise. -/
inductive TokErr
  | keyErrorSites
  | stopIteration
  | keyErrorAccessToken
  | typeErrorNoneConfig
  | assertFailure (msg : String)
deriving DecidableEq, Repr

/-- `login_error` (line 22 of the source). -/
def login_error : String :=
  "You don't seem to be logged in. Set QUIP_TOKEN to an access token or try installing quip-cli and running quip-cli login."

/-- Python truthiness of `config`: `None` and the empty object are falsy. -/
def pyFalsyConf : Option SiteConf → Bool
  | none => true
  | some l => l.isEmpty

/-- First-occurrence lookup among the sites (JSON objects have unique keys;
iteration order is insertion order). -/
def sitesLookup (sites : List (String × SiteConf)) (name : String) : Option SiteConf :=
  match sites with
  | [] => none
  | (n, c) :: rest => if n = name then some c else sitesLookup rest name

/-- `config["accessToken"]` (on a possibly-`None` config): `str(...)` of the
token on success, `TypeError` when config is `None`, `KeyError` when the
key is missing (this includes the empty-object case). -/
def readAccessToken : Option SiteConf → Except TokErr String
  | none => .error .typeErrorNoneConfig
  | some conf =>
    match lookupKV conf "accessToken" with
    | none => .error .keyErrorAccessToken
    | some tok => .ok tok

/-- The config-file part of `get_token` (lines 159-172): parse `~/.quiprc`
(`quiprc = none` models a JSON document without a `"sites"` key, raising
`KeyError`), take `data["sites"].get("quip.com", None)`; if that is falsy,
take the first site (raising `StopIteration` when there are none) and, if
its *name* is truthy, its config.  The
`assert first_site is not None, login_error` can only be reached with
`first_site` bound to a JSON object key, which is a string and never
`None`, so the assert always passes and the login message is never
raised.  Finally `str(config["accessToken"])` is returned. -/
def get_token_file (quiprc : Option (List (String × SiteConf))) : Except TokErr String :=
  match quiprc with
  | none => .error .keyErrorSites
  | some sites =>
    let config := sitesLookup sites "quip.com"
    if pyFalsyConf config then
      match sites with
      | [] => .error .stopIteration
      | (firstSite, _) :: _ =>
        let config := if firstSite ≠ "" then sitesLookup sites firstSite else config
        readAccessToken config
    else readAccessToken config

/-- `get_token` (lines 153-172): the `QUIP_TOKEN` environment variable
(`none` = unset) wins when truthy (set and nonempty); otherwise fall back
to the `.quiprc` file. -/
def get_token (quipTokenEnv : Option String) (quiprc : Option (List (String × SiteConf))) :
    Except TokErr String :=
  match quipTokenEnv with
  | some t => if t ≠ "" then .ok t else get_token_file quiprc
  | none => get_token_file quiprc

/-- Exceptions module-level argument handling can raise. -/
inductive ArgvErr
  | indexError
  | assertionError (msg : String)
deriving DecidableEq, Repr

/-- The message of the `assert` on line 18. -/
def missing_doc_msg : String := "Pass a document ID as the first argument to this script."

/-- Lines 17-18: `doc_id = sys.argv[1]` (`IndexError` when absent), then
`assert doc_id, "Pass a document ID ..."` (fails only on an empty string). -/
def read_doc_id (argv : List String) : Except ArgvErr String :=
  match argv[1]? with
  | none => .error .indexError
  | some d => if d = "" then .error (.assertionError missing_doc_msg) else .ok d

/-- Any fatal error of the whole pipeline. -/
inductive ProgErr
  | argv (e : ArgvErr)
  | token (e : TokErr)
  | htmlParse (e : Err)
deriving DecidableEq, Repr

/-- The program pipeline, in source order: `doc_id` is read at import time
(before `main()`), then `fetch_doc` resolves the token for its
`Authorization` header, then the fetched document's `html` is fed to the
parser.  The HTTPS GET and the YAML serializer are external collaborators;
`docEvents` stands for the parse events of the fetched HTML. -/
def runProgram (argv : List String) (env : Option String)
    (rc : Option (List (String × SiteConf))) (docEvents : List Event) :
    Except ProgErr Output :=
  match read_doc_id argv with
  | .error e => .error (.argv e)
  | .ok _docId =>
    match get_token env rc with
    | .error e => .error (.token e)
    | .ok _tok =>
      match runEvents docEvents with
      | .error e => .error (.htmlParse e)
      | .ok st => .ok st.output

/-! ## Extractors for stating concrete counterexamples -/

/-- The item at a path after a run (`none` when the run failed). -/
def itemOfRun (r : Except Err PState) (p : Nat × Nat × Nat) : Option Item :=
  match r with
  | .ok st => getItemAt st.output p
  | .error _ => none

/-- The document title after a run. -/
def titleOfRun (r : Except Err PState) : Option String :=
  match r with
  | .ok st => some st.output.title
  | .error _ => none

/-- The value of the `"steps"` key after a run (`some none` = run
succeeded and the key is absent). -/
def stepsOfRun (r : Except Err PState) : Option (Option (List Step)) :=
  match r with
  | .ok st => some st.output.steps
  | .error _ => none

/-- Did the run complete without an exception? -/
def runOk (r : Except Err PState) : Bool :=
  match r with
  | .ok _ => true
  | .error _ => false

/-! ## Concrete event streams -/

/-- `<h2>S1</h2><h3>C1</h3><ul><li><span>title: Foo</span><span> Bar</span></li></ul>`:
a list construct with a matching span followed by a sibling non-matching span. -/
def c1Stream : List Event :=
  [.tagOpen "h2", .text "S1", .tagClose "h2",
   .tagOpen "h3", .text "C1", .tagClose "h3",
   .tagOpen "ul", .tagOpen "li", .tagOpen "span", .text "title: Foo", .tagClose "span",
   .tagOpen "span", .text " Bar", .tagClose "span", .tagClose "li", .tagClose "ul"]

/-- A list construct whose very first span does not match the key pattern,
with no current key established. -/
def c2Stream : List Event :=
  [.tagOpen "h2", .text "S", .tagClose "h2",
   .tagOpen "h3", .text "C", .tagClose "h3",
   .tagOpen "ul", .tagOpen "li", .tagOpen "span", .text "no colon here", .tagClose "span",
   .tagClose "li", .tagClose "ul"]

/-- A complete first step (one column, one item `title: Foo`) followed by a
second step heading. -/
def c3Prefix : List Event :=
  [.tagOpen "h2", .text "S1", .tagClose "h2",
   .tagOpen "h3", .text "C1", .tagClose "h3",
   .tagOpen "ul", .tagOpen "li", .tagOpen "span", .text "title: Foo", .tagClose "span",
   .tagClose "li", .tagClose "ul",
   .tagOpen "h2", .text "S2", .tagClose "h2"]

/-- `c3Prefix` followed by `<span><b>Bar</b></span>`: the text `"Bar"`
arrives after the second step heading, with a span open but not innermost. -/
def c3Stream : List Event :=
  c3Prefix ++ [.tagOpen "span", .tagOpen "b", .text "Bar", .tagClose "b", .tagClose "span"]

/-- A concrete Item-mode parser state with one step, one column, one item
`{"title": "Foo"}` and current key `"title"`. -/
def w1State : PState where
  output :=
    { title := "", description := "",
      steps := some [{ navtitle := "S", title := "S", description := none,
                       columns := some [{ title := "C", items := some [[("title", "Foo")]] }] }] }
  currentTags := ["span", "li", "ul"]
  state := Mode.item
  currentStep := some 0
  currentColumn := some (0, 0)
  currentItem := some (0, 0, 0)
  currentKey := some "title"

/-- `w1State` but with the text arriving inside a `<b>` nested in the span. -/
def w1StateB : PState :=
  { w1State with currentTags := ["b", "span", "li", "ul"] }

/-- `w1StateB` with no current key established. -/
def w2State : PState :=
  { w1StateB with currentKey := none }

/-- `w1State` (innermost tag a span) with no current key established. -/
def w2StateS : PState :=
  { w1State with currentKey := none }

/-! ## Pure observers of the output structure -/

/-- The steps list carried by an output (`[]` when the key is absent). -/
def oSteps (o : Output) : List Step := o.steps.getD []

/-- Number of steps. -/
def nSteps (o : Output) : Nat := (oSteps o).length

/-- The columns list of the step at index `i`. -/
def colsAtO (o : Output) (i : Nat) : List Column :=
  match (oSteps o)[i]? with
  | some s => s.columns.getD []
  | none => []

/-- Number of columns of the step at index `i`. -/
def colsLenAt (o : Output) (i : Nat) : Nat := (colsAtO o i).length

/-- The items list of column `j` of step `i`. -/
def itemsAtO (o : Output) (i j : Nat) : List Item :=
  match (colsAtO o i)[j]? with
  | some c => c.items.getD []
  | none => []

/-- Number of items of column `j` of step `i`. -/
def itemsLenAt (o : Output) (i j : Nat) : Nat := (itemsAtO o i j).length

/-- The index of the last step (the step under construction). -/
def lastIdx (o : Output) : Nat := nSteps o - 1

/-- The index of the last column of the last step. -/
def lastColIdx (o : Output) : Nat := colsLenAt o (lastIdx o) - 1

/-- The parser-state invariant: the `"steps"` key exists, and whenever the
mode says a step/column/item is under construction, the corresponding
back-reference points at the *last* entity of its (nonempty) owning list.
It holds in the initial state and is preserved by every successful event. -/
def Inv (st : PState) : Prop :=
  st.output.steps.isSome = true ∧
  (st.state ≠ Mode.title →
    st.currentStep = some (lastIdx st.output) ∧ 1 ≤ nSteps st.output) ∧
  ((st.state = Mode.column ∨ st.state = Mode.item) →
    st.currentColumn = some (lastIdx st.output, lastColIdx st.output) ∧
    1 ≤ nSteps st.output ∧ 1 ≤ colsLenAt st.output (lastIdx st.output)) ∧
  (st.state = Mode.item →
    st.currentItem = some (lastIdx st.output, lastColIdx st.output,
      itemsLenAt st.output (lastIdx st.output) (lastColIdx st.output) - 1) ∧
    1 ≤ nSteps st.output ∧ 1 ≤ colsLenAt st.output (lastIdx st.output) ∧
    1 ≤ itemsLenAt st.output (lastIdx st.output) (lastColIdx st.output))

/-- The step built by an `h2` text event. -/
def newStepOf (d : String) : Step := { navtitle := d, title := d, description := none, columns := none }

/-- The column built by an `h3` text event. -/
def newColOf (d : String) : Column := { title := d, items := none }

/-! ## The pure (stack, mode) skeleton machine -/

/-- The mode after a text event, as a function of the open-tag stack and
the mode alone (the only mode transitions of `handle_data` are `h2 → step`
and `h3`-in-`step` `→ column`). -/
def postMode (tags : List String) (m : Mode) : Mode :=
  match tags.head? with
  | none => m
  | some tag =>
    if tag = "h2" then Mode.step
    else if tag = "h3" ∧ m = Mode.step then Mode.column
    else m

/-- The pure (stack, mode) skeleton of the three handlers: every successful
event transforms `(current_tags, state)` exactly this way, independently of
the output being built. -/
def tmStep (tm : List String × Mode) : Event → List String × Mode
  | .tagOpen t =>
    (t :: tm.1, if t = "ul" ∧ (tm.2 = Mode.column ∨ tm.2 = Mode.item) then Mode.item else tm.2)
  | .tagClose _ => (tm.1.tail, tm.2)
  | .text _ => (tm.1, postMode tm.1 tm.2)

/-! ## Spec-side steps machine (for the refinement claim C4) -/

/-- Specification-side abstraction, following the spec's own words
(§3 "Step", §4.1 transition table, §8): it tracks the open-tag stack and
the mode like the parser, and a list of `(navtitle, title)` pairs, one per
level-2-heading text event, in source order; a quote-block text in Step
mode overwrites the title (only) of the step under construction; nothing
else touches the pairs. -/
structure SpecSM where
  stack : List String
  mode : Mode
  pairs : List (String × String)
deriving DecidableEq, Repr

/-- One event of the spec-side machine. -/
def specStep (a : SpecSM) : Event → SpecSM
  | .tagOpen t =>
    { a with stack := t :: a.stack,
             mode := if t = "ul" ∧ (a.mode = Mode.column ∨ a.mode = Mode.item) then Mode.item else a.mode }
  | .tagClose _ => { a with stack := a.stack.tail }
  | .text d =>
    match a.stack.head? with
    | none => a
    | some tag =>
      if tag = "h2" then { a with mode := Mode.step, pairs := a.pairs ++ [(d, d)] }
      else if tag = "blockquote" ∧ a.mode = Mode.step then
        { a with pairs := updAt a.pairs (a.pairs.length - 1) (fun pr => (pr.1, d)) }
      else if tag = "h3" ∧ a.mode = Mode.step then { a with mode := Mode.column }
      else a

/-- Run the spec-side machine from its initial state. -/
def specRun (es : List Event) : SpecSM := es.foldl specStep ⟨[], Mode.title, []⟩

/-- The `(navtitle, title)` pair of every step, in order — the projection of
the real output that the spec-side machine reconstructs. -/
def projPairs (o : Output) : List (String × String) :=
  (oSteps o).map (fun s => (s.navtitle, s.title))

/-- Count the text events whose innermost open tag is `"h2"`, tracking the
stack purely (a close on an empty stack leaves it empty; such streams make
the real parser fail, so they are irrelevant to successful runs). -/
def countH2From (stk : List String) : List Event → Nat
  | [] => 0
  | .tagOpen t :: es => countH2From (t :: stk) es
  | .tagClose _ :: es => countH2From stk.tail es
  | .text _ :: es => (if stk.head? = some "h2" then 1 else 0) + countH2From stk es

/-- The number of level-2 heading text events of a stream. -/
def countH2 (es : List Event) : Nat := countH2From [] es

/-! ## Trace predicates for C2 and C3 -/

/-- Does the `elif "span" in self.current_tags` branch run for a text event
arriving at state `st`?  (It is skipped exactly when no span is open, or
when the innermost tag is a span while the mode — after the earlier
branches of the same event — is Item.) -/
def elifFires (st : PState) : Bool :=
  decide ("span" ∈ st.currentTags) &&
    !(decide (st.currentTags.head? = some "span") &&
      decide (postMode st.currentTags st.state = Mode.item))

/-- `estOKFrom st est es`: along the run of `es` from `st`, every text event
that reaches the `elif` continuation branch is preceded — since the current
item was created — by a matching `key: value` span (tracked by the flag
`est`, which a matching innermost-span text in Item mode sets and a new
list construct clears). -/
def estOKFrom (st : PState) (est : Bool) : List Event → Bool
  | [] => true
  | e :: es =>
    let check : Bool :=
      match e with
      | .text _ => !(elifFires st) || est
      | _ => true
    let est' : Bool :=
      match e with
      | .tagOpen t =>
        if t = "ul" ∧ (st.state = Mode.column ∨ st.state = Mode.item) then false else est
      | .tagClose _ => est
      | .text d =>
        if st.currentTags.head? = some "span" ∧ st.state = Mode.item ∧ (itemMatch d).isSome
        then true else est
    check &&
      (match stepEvent st e with
       | .ok st' => estOKFrom st' est' es
       | .error _ => true)

/-- "A current key is established": the `current_item`/`current_key`
attributes exist, the item is reachable, and the key is present in it —
exactly what a matching `key: value` span guarantees for the item it was
stored into. -/
def EstFacts (st : PState) : Prop :=
  ∃ p k it, st.currentItem = some p ∧ st.currentKey = some k ∧
    getItemAt st.output p = some it ∧ (lookupKV it k).isSome = true

/-- Is a single event safe for scope-freezing (C3)?  A text event is unsafe
when a span is open but the parser is no longer building the item the
continuation branch would write to (mode not Item after this event's mode
transitions), in which case the `elif` can mutate an entity of an already
closed scope. -/
def safeEvt (st : PState) : Event → Bool
  | .text _ => !(decide ("span" ∈ st.currentTags)) ||
      (decide (st.state = Mode.item) && !(decide (st.currentTags.head? = some "h2")))
  | _ => true

/-- All events of a run are safe (evaluated along the actual run). -/
def safeFrom (st : PState) : List Event → Bool
  | [] => true
  | e :: es =>
    safeEvt st e &&
      (match stepEvent st e with
       | .ok st' => safeFrom st' es
       | .error _ => true)

/-- No present-but-empty sequence anywhere in the output: the `"steps"` key
exists (pre-created), while `"columns"` and `"items"` keys, being created
lazily and immediately extended, are never present as empty lists. -/
def NoEmptySeqs (o : Output) : Prop :=
  o.steps.isSome = true ∧
  ∀ s ∈ oSteps o, s.columns ≠ some ([] : List Column) ∧
    ∀ c ∈ s.columns.getD [], c.items ≠ some ([] : List Item)

/-- The final parser state for `c1Stream` (checked by evaluation). -/
def c1Final : PState where
  output :=
    { title := "", description := "",
      steps := some [{ navtitle := "S1", title := "S1", description := none,
                       columns := some [{ title := "C1", items := some [[("title", "Foo")]] }] }] }
  currentTags := []
  state := Mode.item
  currentStep := some 0
  currentColumn := some (0, 0)
  currentItem := some (0, 0, 0)
  currentKey := some "title"

/-- The scope-freezing frame between two outputs: the number of steps only
grows, every step other than the (old) last one is preserved verbatim, and
within the (old) last step every column other than the (old) last one is
preserved verbatim while the column count only grows. -/
def FrameO (o o' : Output) : Prop :=
  nSteps o ≤ nSteps o' ∧
  (∀ i, i + 1 < nSteps o → (oSteps o')[i]? = (oSteps o)[i]?) ∧
  (∀ j, j + 1 < colsLenAt o (lastIdx o) →
    (colsAtO o' (lastIdx o))[j]? = (colsAtO o (lastIdx o))[j]?) ∧
  colsLenAt o (lastIdx o) ≤ colsLenAt o' (lastIdx o)

/-- The final parser state for `c3Prefix` (checked by evaluation): the first
step is complete, the second just created. -/
def c3PrefixFinal : PState where
  output :=
    { title := "", description := "",
      steps := some [{ navtitle := "S1", title := "S1", description := none,
                       columns := some [{ title := "C1", items := some [[("title", "Foo")]] }] },
                     { navtitle := "S2", title := "S2", description := none, columns := none }] }
  currentTags := []
  state := Mode.step
  currentStep := some 1
  currentColumn := some (0, 0)
  currentItem := some (0, 0, 0)
  currentKey := some "title"

/-- Number of `tagOpen` events. -/
def nOpens : List Event → Nat
  | [] => 0
  | .tagOpen _ :: es => nOpens es + 1
  | _ :: es => nOpens es

/-- Number of `tagClose` events. -/
def nCloses : List Event → Nat
  | [] => 0
  | .tagClose _ :: es => nCloses es + 1
  | _ :: es => nCloses es

/-! ## C1 -/

/-- C1 (counterexample): in the source the `elif "span" in self.current_tags`
branch belongs to the OUTER `if current_tag == "span" and self.state == "item"`,
so a non-matching text whose innermost tag is a span is silently dropped:
the spans `"title: Foo"` followed by the sibling span `" Bar"` yield
`items[0]["title"] == "Foo"`, not `"Foo Bar"` as the claim states. -/
theorem C1_counterexample :
    itemOfRun (runEvents c1Stream) (0, 0, 0) = some [("title", "Foo")] ∧
    itemOfRun (runEvents c1Stream) (0, 0, 0) ≠ some [("title", "Foo Bar")] := by
  exact ⟨by decide, by decide⟩

/-- C1 (amended): in Item mode a matching innermost-span text sets
`Item[strip(key)] = strip(value)` and records the key; a NON-matching
innermost-span text is silently dropped (the state is returned unchanged);
the append-to-`Item[current key]` branch instead fires for a text whose
innermost tag is *not* a span (and none of the structural tags) while a
span is still open. -/
theorem C1_span_rules :
    (∀ (st : PState) (rest : List String) (d : String) (g : String × String)
        (p : Nat × Nat × Nat) (it : Item),
      st.currentTags = "span" :: rest → st.state = Mode.item →
      itemMatch d = some g → st.currentItem = some p → getItemAt st.output p = some it →
      handle_data st d = .ok { st with
        currentKey := some (pyStrip g.1)
        output := modifyItemAt st.output p (fun it' => setKV it' (pyStrip g.1) (pyStrip g.2)) }) ∧
    (∀ (st : PState) (rest : List String) (d : String),
      st.currentTags = "span" :: rest → st.state = Mode.item →
      itemMatch d = none →
      handle_data st d = .ok st) ∧
    (∀ (st : PState) (tag : String) (rest : List String) (d : String)
        (p : Nat × Nat × Nat) (k : String) (it : Item) (v : String),
      st.currentTags = tag :: rest →
      tag ∉ ["h1", "p", "h2", "blockquote", "h3", "span"] →
      "span" ∈ rest →
      st.currentItem = some p → st.currentKey = some k →
      getItemAt st.output p = some it → lookupKV it k = some v →
      handle_data st d = .ok { st with
        output := modifyItemAt st.output p (fun it' => setKV it' k (v ++ d)) }) := by
  refine ⟨?_, ?_, ?_⟩
  · intro st rest d g p it hT hM hMatch hI hG
    obtain ⟨o, tags, m, cs, cc, ci, ck⟩ := st
    simp only at hT hM hI hG
    subst hT hM hI
    simp [handle_data, dIf1, dIf2, dIf3, dIf4, dIf5, dIf6, dIf7, hMatch, hG]
  · intro st rest d hT hM hMatch
    obtain ⟨o, tags, m, cs, cc, ci, ck⟩ := st
    simp only at hT hM
    subst hT hM
    simp [handle_data, dIf1, dIf2, dIf3, dIf4, dIf5, dIf6, dIf7, hMatch]
  · intro st tag rest d p k it v hT hNot hMem hI hK hG hL
    simp only [List.mem_cons, List.mem_singleton] at hNot
    push_neg at hNot
    obtain ⟨h1, h2, h3, h4, h5, h6⟩ := hNot
    obtain ⟨o, tags, m, cs, cc, ci, ck⟩ := st
    simp only at hT hI hK hG
    subst hT hI hK
    simp [handle_data, dIf1, dIf2, dIf3, dIf4, dIf5, dIf6, dIf7,
          h1, h2, h3, h4, h5, h6, hMem, hG, hL]

/-- C1 witness: the three rules applied at concrete inputs. -/
theorem C1_span_rules_witness :
    (handle_data w1State "url: x" = .ok { w1State with
        currentKey := some (pyStrip "url")
        output := modifyItemAt w1State.output (0, 0, 0)
          (fun it' => setKV it' (pyStrip "url") (pyStrip " x")) }) ∧
    (handle_data w1State " Bar" = .ok w1State) ∧
    (handle_data w1StateB " Bar" = .ok { w1StateB with
        output := modifyItemAt w1StateB.output (0, 0, 0)
          (fun it' => setKV it' "title" ("Foo" ++ " Bar")) }) := by
  refine ⟨?_, ?_, ?_⟩
  · exact C1_span_rules.1 w1State ["li", "ul"] "url: x" ("url", " x") (0, 0, 0)
      [("title", "Foo")] rfl rfl (by decide) rfl (by decide)
  · exact C1_span_rules.2.1 w1State ["li", "ul"] " Bar" rfl rfl (by decide)
  · exact C1_span_rules.2.2 w1StateB "b" ["span", "li", "ul"] " Bar" (0, 0, 0) "title"
      [("title", "Foo")] "Foo" rfl (by decide) (by decide) rfl rfl (by decide) (by decide)

/-! ## C2 (counterexample part; the amended theorem is further below) -/

/-- C2 (counterexample): a non-matching span text arriving in Item mode with
no current key established does NOT fail: the run completes and the item is
left empty (the text is silently dropped, because the failing
`current_item[current_key] += data` statement lives in the `elif` branch,
which is skipped when the innermost tag is a span in Item mode). -/
theorem C2_counterexample :
    runOk (runEvents c2Stream) = true ∧
    itemOfRun (runEvents c2Stream) (0, 0, 0) = some [] := by
  exact ⟨by decide, by decide⟩

/-! ## C5 -/

/-- C5: a stream of a single level-1 heading and one paragraph yields
`title` = heading text, `description` = paragraph text plus one trailing
newline, and an (empty) steps sequence. -/
theorem C5_title_description (t d : String) :
    runEvents [.tagOpen "h1", .text t, .tagClose "h1", .tagOpen "p", .text d, .tagClose "p"] =
      .ok { initState with output := { title := t, description := d ++ "\n", steps := some [] } } := by
  rfl

/-! ## C6 -/

/-- C6 (counterexample): `self.output["title"] = data` stores the text
verbatim; the heading text `"  T  "` is stored untrimmed, though its
stripped form would be `"T"`. -/
theorem C6_counterexample :
    titleOfRun (runEvents [.tagOpen "h1", .text "  T  ", .tagClose "h1"]) = some "  T  " ∧
    pyStrip "  T  " = "T" ∧ ("  T  " : String) ≠ "T" := by
  exact ⟨by decide, by decide, by decide⟩

/-- C6 (amended): a level-1 heading text in Title mode sets `Document.title`
to the text unchanged — no whitespace trimming is applied. -/
theorem C6_title_verbatim (st : PState) (rest : List String) (t : String)
    (hT : st.currentTags = "h1" :: rest) (hM : st.state = Mode.title)
    (hS : "span" ∉ rest) :
    handle_data st t = .ok { st with output := { st.output with title := t } } := by
  obtain ⟨o, tags, m, cs, cc, ci, ck⟩ := st
  simp only at hT hM
  subst hT hM
  simp [handle_data, dIf1, dIf2, dIf3, dIf4, dIf5, dIf6, dIf7, hS]

/-- C6 witness. -/
theorem C6_title_verbatim_witness :
    handle_data { initState with currentTags := ["h1"] } "  T  " =
      .ok { { initState with currentTags := ["h1"] } with
            output := { ({ initState with currentTags := ["h1"] } : PState).output with title := "  T  " } } := by
  exact C6_title_verbatim { initState with currentTags := ["h1"] } [] "  T  " rfl rfl (by decide)

/-! ## C7 (counterexample part; the amended theorem is further below) -/

/-- C7 (counterexample): `__init__` pre-creates `output["steps"] = []`, so
the document produced from a stream with no level-2 headings (here: the
empty stream) DOES contain a (present, empty) steps array. -/
theorem C7_counterexample :
    stepsOfRun (runEvents []) = some (some []) ∧
    stepsOfRun (runEvents []) ≠ some none := by
  exact ⟨by decide, by decide⟩

/-! ## C8 -/

/-- C8 (counterexample): with no usable token (env unset or empty, config
has an empty `"sites"` object), `get_token` raises `StopIteration` from
`next(iter(data["sites"]))` — it does not surface the fixed
login-instruction message, whose guarding assert is unreachable. -/
theorem C8_counterexample :
    get_token none (some []) = .error .stopIteration ∧
    get_token (some "") (some []) = .error .stopIteration ∧
    (TokErr.stopIteration ≠ TokErr.assertFailure login_error) := by
  exact ⟨rfl, rfl, by decide⟩

/-- `readAccessToken` never produces the login-assert failure. -/
theorem readAccessToken_not_assert (c : Option SiteConf) (msg : String) :
    readAccessToken c ≠ .error (.assertFailure msg) := by
  cases c with
  | none => simp [readAccessToken]
  | some conf =>
    simp only [readAccessToken]
    split <;> simp

/-- C8 (amended): the environment variable wins only when set to a nonempty
string; otherwise the `quip.com` site's `accessToken` is returned when that
site maps to a truthy object containing one, else the first site's
`accessToken` (when its name is truthy); in the remaining no-token
situations `get_token` fails with `StopIteration` (empty `"sites"` object)
or `KeyError` (no `"sites"` key) — and the fixed login-instruction assert
message can never be raised. -/
theorem C8_token_resolution :
    (∀ (t : String) (rc : Option (List (String × SiteConf))),
       t ≠ "" → get_token (some t) rc = .ok t) ∧
    (∀ (env : Option String) (sites : List (String × SiteConf)) (conf : SiteConf) (tok : String),
       (env = none ∨ env = some "") →
       sitesLookup sites "quip.com" = some conf → conf ≠ [] →
       lookupKV conf "accessToken" = some tok →
       get_token env (some sites) = .ok tok) ∧
    (∀ (env : Option String) (firstName : String) (firstConf : SiteConf)
        (rest : List (String × SiteConf)) (tok : String),
       (env = none ∨ env = some "") →
       pyFalsyConf (sitesLookup ((firstName, firstConf) :: rest) "quip.com") = true →
       firstName ≠ "" →
       lookupKV firstConf "accessToken" = some tok →
       get_token env (some ((firstName, firstConf) :: rest)) = .ok tok) ∧
    (∀ (env : Option String) (rc : Option (List (String × SiteConf))) (msg : String),
       get_token env rc ≠ .error (.assertFailure msg)) ∧
    (∀ (env : Option String),
       (env = none ∨ env = some "") →
       get_token env (some []) = .error .stopIteration ∧
       get_token env none = .error .keyErrorSites) := by
  have envCase : ∀ (env : Option String) (rc : Option (List (String × SiteConf))),
      (env = none ∨ env = some "") → get_token env rc = get_token_file rc := by
    rintro env rc (rfl | rfl) <;> simp [get_token]
  refine ⟨?_, ?_, ?_, ?_, ?_⟩
  · intro t rc ht
    simp [get_token, ht]
  · intro env sites conf tok henv hlook hconf htok
    rw [envCase env (some sites) henv]
    have hfal : pyFalsyConf (some conf) = false := by
      cases conf with
      | nil => exact absurd rfl hconf
      | cons a l => simp [pyFalsyConf]
    simp only [get_token_file, hlook, hfal]
    simp [readAccessToken, htok]
  · intro env firstName firstConf rest tok henv hfal hname htok
    rw [envCase env _ henv]
    simp only [get_token_file, hfal]
    simp [hname, sitesLookup, readAccessToken, htok]
  · intro env rc msg
    have hfile : get_token_file rc ≠ .error (.assertFailure msg) := by
      cases rc with
      | none => simp [get_token_file]
      | some sites =>
        simp only [get_token_file]
        split
        · cases sites with
          | nil => simp
          | cons s rest => exact readAccessToken_not_assert _ _
        · exact readAccessToken_not_assert _ _
    cases env with
    | none => exact hfile
    | some t =>
      by_cases ht : t = ""
      · simp [get_token, ht]
        exact fun h => hfile (by simpa using h)
      · simp [get_token, ht]
  · rintro env henv
    rw [envCase env _ henv, envCase env _ henv]
    exact ⟨rfl, rfl⟩

/-- C8 witness: each rule applied at a concrete environment/config. -/
theorem C8_token_resolution_witness :
    get_token (some "tok") none = .ok "tok" ∧
    get_token none (some [("quip.com", [("accessToken", "abc")])]) = .ok "abc" ∧
    get_token none (some [("corp.quip.com", [("accessToken", "xyz")])]) = .ok "xyz" ∧
    get_token none none ≠ .error (.assertFailure login_error) ∧
    get_token none (some []) = .error .stopIteration := by
  refine ⟨?_, ?_, ?_, ?_, ?_⟩
  · exact C8_token_resolution.1 "tok" none (by decide)
  · exact C8_token_resolution.2.1 none [("quip.com", [("accessToken", "abc")])]
      [("accessToken", "abc")] "abc" (Or.inl rfl) (by decide) (by decide) (by decide)
  · exact C8_token_resolution.2.2.1 none "corp.quip.com" [("accessToken", "xyz")] [] "xyz"
      (Or.inl rfl) (by decide) (by decide) (by decide)
  · exact C8_token_resolution.2.2.2.1 none none login_error
  · exact (C8_token_resolution.2.2.2.2 none (Or.inl rfl)).1

/-! ## C9 -/

/-- C9 (counterexample): with no argument at all, `sys.argv[1]` raises a
bare `IndexError` — not the descriptive assert message of line 18 (which
fires only when the argument is present but empty). -/
theorem C9_counterexample :
    read_doc_id ["generate_yaml.py"] = .error .indexError ∧
    (ArgvErr.indexError ≠ ArgvErr.assertionError missing_doc_msg) := by
  exact ⟨rfl, by decide⟩

/-- C9 (amended): a missing document identifier aborts the pipeline
immediately with an uncaught `IndexError`, before credential lookup,
fetch or parsing (the result does not depend on the environment, the
config file or the document); the descriptive assert message appears only
when an argument is supplied but empty; a nonempty argument is accepted. -/
theorem C9_missing_argument (env : Option String) (rc : Option (List (String × SiteConf)))
    (evs : List Event) (d : String) (hd : d ≠ "") :
    runProgram ["generate_yaml.py"] env rc evs = .error (.argv .indexError) ∧
    runProgram ["generate_yaml.py", ""] env rc evs = .error (.argv (.assertionError missing_doc_msg)) ∧
    read_doc_id ["generate_yaml.py", d] = .ok d := by
  refine ⟨rfl, rfl, ?_⟩
  simp [read_doc_id, hd]

/-- C9 witness. -/
theorem C9_missing_argument_witness :
    runProgram ["generate_yaml.py"] none none [] = .error (.argv .indexError) ∧
    runProgram ["generate_yaml.py", ""] none none [] = .error (.argv (.assertionError missing_doc_msg)) ∧
    read_doc_id ["generate_yaml.py", "AbCdEfGh"] = .ok "AbCdEfGh" := by
  exact C9_missing_argument none none [] "AbCdEfGh" (by decide)

/-! ## List helper lemmas -/

theorem updAt_length {α : Type} (l : List α) (n : Nat) (f : α → α) :
    (updAt l n f).length = l.length := by
  induction l generalizing n with
  | nil => rfl
  | cons a rest ih =>
    cases n with
    | zero => rfl
    | succ m => simp [updAt, ih]

theorem getq_updAt_self {α : Type} (l : List α) (n : Nat) (f : α → α) :
    (updAt l n f)[n]? = (l[n]?).map f := by
  induction l generalizing n with
  | nil => rfl
  | cons a rest ih =>
    cases n with
    | zero => simp [updAt]
    | succ m => simpa [updAt] using ih m

theorem getq_updAt_ne {α : Type} (l : List α) (n m : Nat) (f : α → α) (h : m ≠ n) :
    (updAt l n f)[m]? = l[m]? := by
  induction l generalizing n m with
  | nil => rfl
  | cons a rest ih =>
    cases n with
    | zero =>
      cases m with
      | zero => exact absurd rfl h
      | succ k => simp [updAt]
    | succ n' =>
      cases m with
      | zero => simp [updAt]
      | succ k => simpa [updAt] using ih n' k (fun hk => h (by omega))

theorem mem_updAt {α : Type} {x : α} {l : List α} {n : Nat} {f : α → α}
    (h : x ∈ updAt l n f) : x ∈ l ∨ ∃ y, y ∈ l ∧ x = f y := by
  induction l generalizing n with
  | nil => simp [updAt] at h
  | cons a rest ih =>
    cases n with
    | zero =>
      rcases List.mem_cons.mp h with h' | h'
      · exact Or.inr ⟨a, by simp, h'⟩
      · exact Or.inl (List.mem_cons_of_mem _ h')
    | succ m =>
      rcases List.mem_cons.mp h with h' | h'
      · exact Or.inl (by simp [h'])
      · rcases ih h' with h'' | ⟨y, hy, hxy⟩
        · exact Or.inl (List.mem_cons_of_mem _ h'')
        · exact Or.inr ⟨y, List.mem_cons_of_mem _ hy, hxy⟩

theorem mem_of_getq {α : Type} {l : List α} {n : Nat} {a : α} (h : l[n]? = some a) :
    a ∈ l := by
  induction l generalizing n with
  | nil => simp at h
  | cons b rest ih =>
    cases n with
    | zero => simp at h; simp [h]
    | succ m => exact List.mem_cons_of_mem _ (ih (by simpa using h))

theorem getq_of_lt {α : Type} (l : List α) (n : Nat) (h : n < l.length) :
    ∃ a, l[n]? = some a := ⟨l[n], List.getElem?_eq_getElem h⟩

/-! ## Structural lemmas about the output modifiers -/

theorem oSteps_modifyStep (o : Output) (k : Nat) (f : Step → Step) :
    oSteps (modifyStep o k f) = updAt (oSteps o) k f := by
  cases h : o.steps <;> simp [oSteps, modifyStep, h, updAt]

theorem nSteps_modifyStep (o : Output) (k : Nat) (f : Step → Step) :
    nSteps (modifyStep o k f) = nSteps o := by
  simp [nSteps, oSteps_modifyStep, updAt_length]

theorem isSome_modifyStep (o : Output) (k : Nat) (f : Step → Step) :
    (modifyStep o k f).steps.isSome = o.steps.isSome := by
  cases h : o.steps <;> simp [modifyStep, h]

theorem title_modifyStep (o : Output) (k : Nat) (f : Step → Step) :
    (modifyStep o k f).title = o.title := rfl

theorem description_modifyStep (o : Output) (k : Nat) (f : Step → Step) :
    (modifyStep o k f).description = o.description := rfl

theorem colsAtO_modifyStep_ne (o : Output) (k : Nat) (f : Step → Step) (i : Nat) (h : i ≠ k) :
    colsAtO (modifyStep o k f) i = colsAtO o i := by
  simp [colsAtO, oSteps_modifyStep, getq_updAt_ne _ _ _ _ h]

theorem colsAtO_modifyStep_self (o : Output) (k : Nat) (f : Step → Step) (s : Step)
    (hs : (oSteps o)[k]? = some s) :
    colsAtO (modifyStep o k f) k = (f s).columns.getD [] := by
  simp [colsAtO, oSteps_modifyStep, getq_updAt_self, hs]

theorem colsAtO_modifyColumn (o : Output) (k j : Nat) (fc : Column → Column) (i : Nat) :
    colsAtO (modifyColumn o k j fc) i =
      if i = k then updAt (colsAtO o i) j fc else colsAtO o i := by
  by_cases hik : i = k
  · subst hik
    cases hs : (oSteps o)[i]? with
    | none =>
      simp [colsAtO, modifyColumn, oSteps_modifyStep, getq_updAt_self, hs, updAt]
    | some s =>
      simp only [modifyColumn]
      rw [colsAtO_modifyStep_self o i _ s hs]
      cases hc : s.columns <;> simp [colsAtO, hs, hc, updAt]
  · simp [hik, modifyColumn, colsAtO_modifyStep_ne _ _ _ _ hik]

theorem colsLenAt_modifyColumn (o : Output) (k j : Nat) (fc : Column → Column) (i : Nat) :
    colsLenAt (modifyColumn o k j fc) i = colsLenAt o i := by
  simp only [colsLenAt, colsAtO_modifyColumn]
  split <;> simp [updAt_length]

theorem itemsAtO_modifyItemAt_ne (o : Output) (p : Nat × Nat × Nat) (f : Item → Item)
    (i j : Nat) (h : ¬(i = p.1 ∧ j = p.2.1)) :
    itemsAtO (modifyItemAt o p f) i j = itemsAtO o i j := by
  by_cases hi : i = p.1
  · have hj : j ≠ p.2.1 := fun hj => h ⟨hi, hj⟩
    subst hi
    simp [itemsAtO, modifyItemAt, colsAtO_modifyColumn, getq_updAt_ne _ _ _ _ hj]
  · simp [itemsAtO, modifyItemAt, colsAtO_modifyColumn, hi]

theorem colsAtO_modifyItemAt_self (o : Output) (p : Nat × Nat × Nat) (f : Item → Item) :
    colsAtO (modifyItemAt o p f) p.1 =
      updAt (colsAtO o p.1) p.2.1
        (fun c => { c with items := c.items.map (fun l => updAt l p.2.2 f) }) := by
  simp [modifyItemAt, colsAtO_modifyColumn]

theorem itemsAtO_modifyItemAt_self (o : Output) (p : Nat × Nat × Nat) (f : Item → Item)
    (c : Column) (hc : (colsAtO o p.1)[p.2.1]? = some c) :
    itemsAtO (modifyItemAt o p f) p.1 p.2.1 =
      updAt (itemsAtO o p.1 p.2.1) p.2.2 f := by
  rw [itemsAtO, colsAtO_modifyItemAt_self, getq_updAt_self, hc]
  cases hit : c.items <;> simp [itemsAtO, hc, hit, updAt]

theorem itemsLenAt_modifyItemAt (o : Output) (p : Nat × Nat × Nat) (f : Item → Item)
    (i j : Nat) :
    itemsLenAt (modifyItemAt o p f) i j = itemsLenAt o i j := by
  by_cases h : i = p.1 ∧ j = p.2.1
  · rw [h.1, h.2]
    cases hc : (colsAtO o p.1)[p.2.1]? with
    | none =>
      rw [itemsLenAt, itemsAtO, colsAtO_modifyItemAt_self, getq_updAt_self, hc]
      simp [itemsLenAt, itemsAtO, hc]
    | some c =>
      simp [itemsLenAt, itemsAtO_modifyItemAt_self o p f c hc, updAt_length]
  · simp [itemsLenAt, itemsAtO_modifyItemAt_ne o p f i j h]

theorem getColumnAt_eq (o : Output) (i j : Nat) :
    getColumnAt o i j = (colsAtO o i)[j]? := by
  have hst : getStepAt o i = (oSteps o)[i]? := rfl
  rw [getColumnAt, hst, colsAtO]
  cases hs : (oSteps o)[i]? with
  | none => simp
  | some s => simp

theorem getItemAt_eq (o : Output) (p : Nat × Nat × Nat) :
    getItemAt o p = (itemsAtO o p.1 p.2.1)[p.2.2]? := by
  rw [getItemAt, getColumnAt_eq]
  cases hc : (colsAtO o p.1)[p.2.1]? <;> simp [itemsAtO, hc]

/-! ## Branch characterization lemmas for the handlers -/

theorem dIf1_id (tag d : String) (st : PState) (h : ¬(tag = "h1" ∧ st.state = Mode.title)) :
    dIf1 tag d st = st := by
  simp [dIf1, h]

theorem dIf1_cases (tag d : String) (st : PState) :
    (tag = "h1" ∧ st.state = Mode.title ∧
      dIf1 tag d st = { st with output := { st.output with title := d } }) ∨
    (¬(tag = "h1" ∧ st.state = Mode.title) ∧ dIf1 tag d st = st) := by
  by_cases h : tag = "h1" ∧ st.state = Mode.title
  · exact Or.inl ⟨h.1, h.2, by simp [dIf1, h]⟩
  · exact Or.inr ⟨h, dIf1_id tag d st h⟩

theorem dIf2_id (tag d : String) (st : PState) (h : ¬(tag = "p" ∧ st.state = Mode.title)) :
    dIf2 tag d st = st := by
  simp [dIf2, h]

theorem dIf2_cases (tag d : String) (st : PState) :
    (tag = "p" ∧ st.state = Mode.title ∧
      dIf2 tag d st = { st with output :=
        { st.output with description := st.output.description ++ d ++ "\n" } }) ∨
    (¬(tag = "p" ∧ st.state = Mode.title) ∧ dIf2 tag d st = st) := by
  by_cases h : tag = "p" ∧ st.state = Mode.title
  · exact Or.inl ⟨h.1, h.2, by simp [dIf2, h]⟩
  · exact Or.inr ⟨h, dIf2_id tag d st h⟩

theorem dIf3_id (tag d : String) (st : PState) (h : tag ≠ "h2") : dIf3 tag d st = .ok st := by
  simp [dIf3, h]

theorem dIf3_fire (tag d : String) (st : PState) (l : List Step)
    (h : tag = "h2") (hl : st.output.steps = some l) :
    dIf3 tag d st = .ok { st with
      state := Mode.step
      output := { st.output with steps := some (l ++ [newStepOf d]) }
      currentStep := some l.length } := by
  simp [dIf3, h, hl, newStepOf]

theorem dIf3_cases (tag d : String) (st st' : PState) (h : dIf3 tag d st = .ok st') :
    (∃ l, tag = "h2" ∧ st.output.steps = some l ∧
      st' = { st with
        state := Mode.step
        output := { st.output with steps := some (l ++ [newStepOf d]) }
        currentStep := some l.length }) ∨
    (tag ≠ "h2" ∧ st' = st) := by
  by_cases htag : tag = "h2"
  · cases hl : st.output.steps with
    | none => subst htag; simp [dIf3, hl] at h
    | some l =>
      rw [dIf3_fire tag d st l htag hl] at h
      injection h with h
      exact Or.inl ⟨l, htag, rfl, h.symm⟩
  · rw [dIf3_id tag d st htag] at h
    injection h with h
    exact Or.inr ⟨htag, h.symm⟩

theorem dIf4_id (tag d : String) (st : PState) (h : ¬(tag = "blockquote" ∧ st.state = Mode.step)) :
    dIf4 tag d st = .ok st := by
  simp [dIf4, h]

theorem dIf4_fire (tag d : String) (st : PState) (i : Nat)
    (h1 : tag = "blockquote") (h2 : st.state = Mode.step) (hi : st.currentStep = some i) :
    dIf4 tag d st = .ok { st with output := modifyStep st.output i (fun s => { s with title := d }) } := by
  simp [dIf4, h1, h2, hi]

theorem dIf4_cases (tag d : String) (st st' : PState) (h : dIf4 tag d st = .ok st') :
    (∃ i, tag = "blockquote" ∧ st.state = Mode.step ∧ st.currentStep = some i ∧
      st' = { st with output := modifyStep st.output i (fun s => { s with title := d }) }) ∨
    (¬(tag = "blockquote" ∧ st.state = Mode.step) ∧ st' = st) := by
  by_cases hc : tag = "blockquote" ∧ st.state = Mode.step
  · cases hi : st.currentStep with
    | none => simp [dIf4, hc, hi] at h
    | some i =>
      rw [dIf4_fire tag d st i hc.1 hc.2 hi, hi] at h
      injection h with h
      exact Or.inl ⟨i, hc.1, hc.2, rfl, h.symm⟩
  · rw [dIf4_id tag d st hc] at h
    injection h with h
    exact Or.inr ⟨hc, h.symm⟩

theorem dIf5_id (tag d : String) (st : PState) (h : ¬(tag = "p" ∧ st.state = Mode.step)) :
    dIf5 tag d st = .ok st := by
  simp [dIf5, h]

theorem dIf5_fire (tag d : String) (st : PState) (i : Nat)
    (h1 : tag = "p") (h2 : st.state = Mode.step) (hi : st.currentStep = some i) :
    dIf5 tag d st = .ok { st with output := modifyStep st.output i (fun s =>
      { s with description := some ((s.description.getD "") ++ d ++ "\n") }) } := by
  simp [dIf5, h1, h2, hi]

theorem dIf5_cases (tag d : String) (st st' : PState) (h : dIf5 tag d st = .ok st') :
    (∃ i, tag = "p" ∧ st.state = Mode.step ∧ st.currentStep = some i ∧
      st' = { st with output := modifyStep st.output i (fun s =>
        { s with description := some ((s.description.getD "") ++ d ++ "\n") }) }) ∨
    (¬(tag = "p" ∧ st.state = Mode.step) ∧ st' = st) := by
  by_cases hc : tag = "p" ∧ st.state = Mode.step
  · cases hi : st.currentStep with
    | none => simp [dIf5, hc, hi] at h
    | some i =>
      rw [dIf5_fire tag d st i hc.1 hc.2 hi, hi] at h
      injection h with h
      exact Or.inl ⟨i, hc.1, hc.2, rfl, h.symm⟩
  · rw [dIf5_id tag d st hc] at h
    injection h with h
    exact Or.inr ⟨hc, h.symm⟩

theorem dIf6_id (tag d : String) (st : PState) (h : ¬(tag = "h3" ∧ st.state = Mode.step)) :
    dIf6 tag d st = .ok st := by
  simp [dIf6, h]

theorem dIf6_fire (tag d : String) (st : PState) (i : Nat) (s : Step)
    (h1 : tag = "h3") (h2 : st.state = Mode.step) (hi : st.currentStep = some i)
    (hs : getStepAt st.output i = some s) :
    dIf6 tag d st = .ok { st with
      state := Mode.column
      output := modifyStep st.output i (fun s' =>
        { s' with columns := some ((s.columns.getD []) ++ [newColOf d]) })
      currentColumn := some (i, (s.columns.getD []).length) } := by
  simp [dIf6, h1, h2, hi, hs, newColOf]

theorem dIf6_cases (tag d : String) (st st' : PState) (h : dIf6 tag d st = .ok st') :
    (∃ i s, tag = "h3" ∧ st.state = Mode.step ∧ st.currentStep = some i ∧
      getStepAt st.output i = some s ∧
      st' = { st with
        state := Mode.column
        output := modifyStep st.output i (fun s' =>
          { s' with columns := some ((s.columns.getD []) ++ [newColOf d]) })
        currentColumn := some (i, (s.columns.getD []).length) }) ∨
    (¬(tag = "h3" ∧ st.state = Mode.step) ∧ st' = st) := by
  by_cases hc : tag = "h3" ∧ st.state = Mode.step
  · cases hi : st.currentStep with
    | none => simp [dIf6, hc, hi] at h
    | some i =>
      cases hs : getStepAt st.output i with
      | none => simp [dIf6, hc, hi, hs] at h
      | some s =>
        rw [dIf6_fire tag d st i s hc.1 hc.2 hi hs, hi] at h
        injection h with h
        exact Or.inl ⟨i, s, hc.1, hc.2, rfl, hs, h.symm⟩
  · rw [dIf6_id tag d st hc] at h
    injection h with h
    exact Or.inr ⟨hc, h.symm⟩

theorem dIf7_idle (tag d : String) (st : PState)
    (h : ¬(tag = "span" ∧ st.state = Mode.item)) (hs : "span" ∉ st.currentTags) :
    dIf7 tag d st = .ok st := by
  simp [dIf7, h, hs]

theorem dIf7_nomatch (tag d : String) (st : PState)
    (h1 : tag = "span") (h2 : st.state = Mode.item) (hm : itemMatch d = none) :
    dIf7 tag d st = .ok st := by
  simp [dIf7, h1, h2, hm]

theorem dIf7_match_fire (tag d : String) (st : PState) (g : String × String)
    (p : Nat × Nat × Nat) (it : Item)
    (h1 : tag = "span") (h2 : st.state = Mode.item) (hm : itemMatch d = some g)
    (hp : st.currentItem = some p) (hit : getItemAt st.output p = some it) :
    dIf7 tag d st = .ok { st with
      currentKey := some (pyStrip g.1)
      output := modifyItemAt st.output p (fun it' => setKV it' (pyStrip g.1) (pyStrip g.2)) } := by
  simp [dIf7, h1, h2, hm, hp, hit]

theorem dIf7_cont_fire (tag d : String) (st : PState)
    (p : Nat × Nat × Nat) (k : String) (it : Item) (v : String)
    (h : ¬(tag = "span" ∧ st.state = Mode.item)) (hs : "span" ∈ st.currentTags)
    (hp : st.currentItem = some p) (hk : st.currentKey = some k)
    (hit : getItemAt st.output p = some it) (hv : lookupKV it k = some v) :
    dIf7 tag d st = .ok { st with
      output := modifyItemAt st.output p (fun it' => setKV it' k (v ++ d)) } := by
  simp [dIf7, h, hs, hp, hk, hit, hv]

theorem dIf7_cases (tag d : String) (st st' : PState) (h : dIf7 tag d st = .ok st') :
    (∃ g p it, tag = "span" ∧ st.state = Mode.item ∧ itemMatch d = some g ∧
      st.currentItem = some p ∧ getItemAt st.output p = some it ∧
      st' = { st with
        currentKey := some (pyStrip g.1)
        output := modifyItemAt st.output p (fun it' => setKV it' (pyStrip g.1) (pyStrip g.2)) }) ∨
    (tag = "span" ∧ st.state = Mode.item ∧ itemMatch d = none ∧ st' = st) ∨
    (∃ p k it v, ¬(tag = "span" ∧ st.state = Mode.item) ∧ "span" ∈ st.currentTags ∧
      st.currentItem = some p ∧ st.currentKey = some k ∧
      getItemAt st.output p = some it ∧ lookupKV it k = some v ∧
      st' = { st with
        output := modifyItemAt st.output p (fun it' => setKV it' k (v ++ d)) }) ∨
    (¬(tag = "span" ∧ st.state = Mode.item) ∧ "span" ∉ st.currentTags ∧ st' = st) := by
  by_cases hc : tag = "span" ∧ st.state = Mode.item
  · cases hm : itemMatch d with
    | none =>
      rw [dIf7_nomatch tag d st hc.1 hc.2 hm] at h
      injection h with h
      exact Or.inr (Or.inl ⟨hc.1, hc.2, rfl, h.symm⟩)
    | some g =>
      cases hp : st.currentItem with
      | none => simp [dIf7, hc, hm, hp] at h
      | some p =>
        cases hit : getItemAt st.output p with
        | none => simp [dIf7, hc, hm, hp, hit] at h
        | some it =>
          rw [dIf7_match_fire tag d st g p it hc.1 hc.2 hm hp hit, hp] at h
          injection h with h
          exact Or.inl ⟨g, p, it, hc.1, hc.2, rfl, rfl, hit, h.symm⟩
  · by_cases hs : "span" ∈ st.currentTags
    · cases hp : st.currentItem with
      | none => simp [dIf7, hc, hs, hp] at h
      | some p =>
        cases hk : st.currentKey with
        | none => simp [dIf7, hc, hs, hp, hk] at h
        | some k =>
          cases hit : getItemAt st.output p with
          | none => simp [dIf7, hc, hs, hp, hk, hit] at h
          | some it =>
            cases hv : lookupKV it k with
            | none => simp [dIf7, hc, hs, hp, hk, hit, hv] at h
            | some v =>
              rw [dIf7_cont_fire tag d st p k it v hc hs hp hk hit hv, hp, hk] at h
              injection h with h
              exact Or.inr (Or.inr (Or.inl ⟨p, k, it, v, hc, hs, rfl, rfl, hit, hv, h.symm⟩))
    · rw [dIf7_idle tag d st hc hs] at h
      injection h with h
      exact Or.inr (Or.inr (Or.inr ⟨hc, hs, h.symm⟩))

theorem handle_starttag_id (st : PState) (t : String)
    (h : ¬(t = "ul" ∧ (st.state = Mode.column ∨ st.state = Mode.item))) :
    handle_starttag st t = .ok { st with currentTags := t :: st.currentTags } := by
  simp [handle_starttag, h]

theorem handle_starttag_fire (st : PState) (t : String) (i j : Nat) (col : Column)
    (h1 : t = "ul") (h2 : st.state = Mode.column ∨ st.state = Mode.item)
    (hij : st.currentColumn = some (i, j)) (hcol : getColumnAt st.output i j = some col) :
    handle_starttag st t = .ok { st with
      currentTags := t :: st.currentTags
      state := Mode.item
      output := modifyColumn st.output i j (fun c =>
        { c with items := some ((col.items.getD []) ++ [([] : Item)]) })
      currentItem := some (i, j, (col.items.getD []).length) } := by
  simp [handle_starttag, h1, h2, hij, hcol]

theorem handle_starttag_cases (st st' : PState) (t : String)
    (h : handle_starttag st t = .ok st') :
    (∃ i j col, t = "ul" ∧ (st.state = Mode.column ∨ st.state = Mode.item) ∧
      st.currentColumn = some (i, j) ∧ getColumnAt st.output i j = some col ∧
      st' = { st with
        currentTags := t :: st.currentTags
        state := Mode.item
        output := modifyColumn st.output i j (fun c =>
          { c with items := some ((col.items.getD []) ++ [([] : Item)]) })
        currentItem := some (i, j, (col.items.getD []).length) }) ∨
    (¬(t = "ul" ∧ (st.state = Mode.column ∨ st.state = Mode.item)) ∧
      st' = { st with currentTags := t :: st.currentTags }) := by
  by_cases hc : t = "ul" ∧ (st.state = Mode.column ∨ st.state = Mode.item)
  · cases hij : st.currentColumn with
    | none => simp [handle_starttag, hc.1, hc.2, hij] at h
    | some ij =>
      have hij' : st.currentColumn = some (ij.1, ij.2) := by rw [hij]
      cases hcol : getColumnAt st.output ij.1 ij.2 with
      | none => simp [handle_starttag, hc.1, hc.2, hij', hcol] at h
      | some col =>
        rw [handle_starttag_fire st t ij.1 ij.2 col hc.1 hc.2 hij' hcol, hij] at h
        injection h with h
        exact Or.inl ⟨ij.1, ij.2, col, hc.1, hc.2, rfl, hcol, h.symm⟩
  · rw [handle_starttag_id st t hc] at h
    injection h with h
    exact Or.inr ⟨hc, h.symm⟩

theorem handle_endtag_cases (st st' : PState) (t : String)
    (h : handle_endtag st t = .ok st') :
    ∃ a rest, st.currentTags = a :: rest ∧ st' = { st with currentTags := rest } := by
  cases hT : st.currentTags with
  | nil => simp [handle_endtag, hT] at h
  | cons a rest =>
    refine ⟨a, rest, rfl, ?_⟩
    simp only [handle_endtag, hT] at h
    injection h with h
    exact h.symm

theorem handle_data_nil (st : PState) (d : String) (h : st.currentTags = []) :
    handle_data st d = .ok st := by
  simp [handle_data, h]

theorem handle_data_ok_decomp (st st' : PState) (d tag : String) (rest : List String)
    (hT : st.currentTags = tag :: rest) (h : handle_data st d = .ok st') :
    ∃ st3 st4 st5 st6,
      dIf3 tag d (dIf2 tag d (dIf1 tag d st)) = .ok st3 ∧
      dIf4 tag d st3 = .ok st4 ∧ dIf5 tag d st4 = .ok st5 ∧
      dIf6 tag d st5 = .ok st6 ∧ dIf7 tag d st6 = .ok st' := by
  simp only [handle_data, hT] at h
  cases h3 : dIf3 tag d (dIf2 tag d (dIf1 tag d st)) with
  | error e => simp [h3] at h
  | ok st3 =>
    simp only [h3] at h
    cases h4 : dIf4 tag d st3 with
    | error e => simp [h4] at h
    | ok st4 =>
      simp only [h4] at h
      cases h5 : dIf5 tag d st4 with
      | error e => simp [h5] at h
      | ok st5 =>
        simp only [h5] at h
        cases h6 : dIf6 tag d st5 with
        | error e => simp [h6] at h
        | ok st6 =>
          simp only [h6] at h
          exact ⟨st3, st4, st5, st6, rfl, h4, h5, h6, h⟩

/-! ## Field-preservation facts for the branches -/

theorem dIf1_tags (tag d : String) (st : PState) : (dIf1 tag d st).currentTags = st.currentTags := by
  unfold dIf1; split <;> rfl

theorem dIf1_state (tag d : String) (st : PState) : (dIf1 tag d st).state = st.state := by
  unfold dIf1; split <;> rfl

theorem dIf2_tags (tag d : String) (st : PState) : (dIf2 tag d st).currentTags = st.currentTags := by
  unfold dIf2; split <;> rfl

theorem dIf2_state (tag d : String) (st : PState) : (dIf2 tag d st).state = st.state := by
  unfold dIf2; split <;> rfl

theorem dIf3_ok_tags (tag d : String) (st st' : PState) (h : dIf3 tag d st = .ok st') :
    st'.currentTags = st.currentTags := by
  rcases dIf3_cases tag d st st' h with ⟨l, _, _, rfl⟩ | ⟨_, rfl⟩ <;> rfl

theorem dIf3_ok_state (tag d : String) (st st' : PState) (h : dIf3 tag d st = .ok st') :
    st'.state = if tag = "h2" then Mode.step else st.state := by
  rcases dIf3_cases tag d st st' h with ⟨l, htag, _, rfl⟩ | ⟨htag, rfl⟩ <;> simp [htag]

theorem dIf4_ok_tags (tag d : String) (st st' : PState) (h : dIf4 tag d st = .ok st') :
    st'.currentTags = st.currentTags := by
  rcases dIf4_cases tag d st st' h with ⟨i, _, _, _, rfl⟩ | ⟨_, rfl⟩ <;> rfl

theorem dIf4_ok_state (tag d : String) (st st' : PState) (h : dIf4 tag d st = .ok st') :
    st'.state = st.state := by
  rcases dIf4_cases tag d st st' h with ⟨i, _, _, _, rfl⟩ | ⟨_, rfl⟩ <;> rfl

theorem dIf5_ok_tags (tag d : String) (st st' : PState) (h : dIf5 tag d st = .ok st') :
    st'.currentTags = st.currentTags := by
  rcases dIf5_cases tag d st st' h with ⟨i, _, _, _, rfl⟩ | ⟨_, rfl⟩ <;> rfl

theorem dIf5_ok_state (tag d : String) (st st' : PState) (h : dIf5 tag d st = .ok st') :
    st'.state = st.state := by
  rcases dIf5_cases tag d st st' h with ⟨i, _, _, _, rfl⟩ | ⟨_, rfl⟩ <;> rfl

theorem dIf6_ok_tags (tag d : String) (st st' : PState) (h : dIf6 tag d st = .ok st') :
    st'.currentTags = st.currentTags := by
  rcases dIf6_cases tag d st st' h with ⟨i, s, _, _, _, _, rfl⟩ | ⟨_, rfl⟩ <;> rfl

theorem dIf6_ok_state (tag d : String) (st st' : PState) (h : dIf6 tag d st = .ok st') :
    st'.state = if tag = "h3" ∧ st.state = Mode.step then Mode.column else st.state := by
  rcases dIf6_cases tag d st st' h with ⟨i, s, h1, h2, _, _, rfl⟩ | ⟨hn, rfl⟩
  · simp [h1, h2]
  · simp only [if_neg hn]

theorem dIf7_ok_tags (tag d : String) (st st' : PState) (h : dIf7 tag d st = .ok st') :
    st'.currentTags = st.currentTags := by
  rcases dIf7_cases tag d st st' h with
    ⟨g, p, it, _, _, _, _, _, rfl⟩ | ⟨_, _, _, rfl⟩ | ⟨p, k, it, v, _, _, _, _, _, _, rfl⟩ |
    ⟨_, _, rfl⟩ <;> rfl

theorem dIf7_ok_state (tag d : String) (st st' : PState) (h : dIf7 tag d st = .ok st') :
    st'.state = st.state := by
  rcases dIf7_cases tag d st st' h with
    ⟨g, p, it, _, _, _, _, _, rfl⟩ | ⟨_, _, _, rfl⟩ | ⟨p, k, it, v, _, _, _, _, _, _, rfl⟩ |
    ⟨_, _, rfl⟩ <;> rfl

/-- A successful text event preserves the tag stack and moves the mode to
`postMode`. -/
theorem handle_data_tm (st st' : PState) (d : String) (h : handle_data st d = .ok st') :
    st'.currentTags = st.currentTags ∧ st'.state = postMode st.currentTags st.state := by
  cases hT : st.currentTags with
  | nil =>
    rw [handle_data_nil st d hT] at h
    injection h with h
    subst h
    simp [postMode, hT]
  | cons tag rest =>
    obtain ⟨st3, st4, st5, st6, h3, h4, h5, h6, h7⟩ := handle_data_ok_decomp st st' d tag rest hT h
    have t3 := dIf3_ok_tags _ _ _ _ h3
    have t4 := dIf4_ok_tags _ _ _ _ h4
    have t5 := dIf5_ok_tags _ _ _ _ h5
    have t6 := dIf6_ok_tags _ _ _ _ h6
    have t7 := dIf7_ok_tags _ _ _ _ h7
    have s3 := dIf3_ok_state _ _ _ _ h3
    have s4 := dIf4_ok_state _ _ _ _ h4
    have s5 := dIf5_ok_state _ _ _ _ h5
    have s6 := dIf6_ok_state _ _ _ _ h6
    have s7 := dIf7_ok_state _ _ _ _ h7
    rw [dIf2_tags, dIf1_tags] at t3
    rw [dIf2_state, dIf1_state] at s3
    constructor
    · rw [t7, t6, t5, t4, t3]
      exact hT
    · rw [s7, s6, s5, s4, s3]
      by_cases htag : tag = "h2"
      · simp [postMode, hT, htag]
      · simp only [if_neg htag]
        simp [postMode, hT, htag]

/-- How a successful event changes the stack length. -/
theorem stepEvent_stack (st st' : PState) (e : Event) (h : stepEvent st e = .ok st') :
    (∀ t, e = .tagOpen t → st'.currentTags.length = st.currentTags.length + 1) ∧
    (∀ t, e = .tagClose t →
      st'.currentTags.length + 1 = st.currentTags.length) ∧
    (∀ d, e = .text d → st'.currentTags.length = st.currentTags.length) := by
  cases e with
  | tagOpen t =>
    refine ⟨fun t' ht => ?_, fun t' ht => by simp at ht, fun d hd => by simp at hd⟩
    rcases handle_starttag_cases st st' t h with
      ⟨i, j, col, _, _, _, _, rfl⟩ | ⟨_, rfl⟩ <;> simp
  | tagClose t =>
    refine ⟨fun t' ht => by simp at ht, fun t' ht => ?_, fun d hd => by simp at hd⟩
    obtain ⟨a, rest, hT, rfl⟩ := handle_endtag_cases st st' t h
    simp [hT]
  | text d =>
    refine ⟨fun t' ht => by simp at ht, fun t' ht => by simp at ht, fun d' hd => ?_⟩
    rw [(handle_data_tm st st' d h).1]

/-! ## Error classification (which exceptions each site can raise) -/

theorem dIf3_error_cases (tag d : String) (st : PState) (e : Err)
    (h : dIf3 tag d st = .error e) :
    tag = "h2" ∧ st.output.steps = none ∧ e = .keyError := by
  by_cases htag : tag = "h2"
  · cases hl : st.output.steps with
    | none =>
      refine ⟨htag, rfl, ?_⟩
      subst htag
      simp [dIf3, hl] at h
      exact h.symm
    | some l => rw [dIf3_fire tag d st l htag hl] at h; simp at h
  · rw [dIf3_id tag d st htag] at h; simp at h

theorem dIf4_error_cases (tag d : String) (st : PState) (e : Err)
    (h : dIf4 tag d st = .error e) :
    tag = "blockquote" ∧ st.state = Mode.step ∧ st.currentStep = none ∧
      e = .attrError "current_step" := by
  by_cases hc : tag = "blockquote" ∧ st.state = Mode.step
  · cases hi : st.currentStep with
    | none =>
      refine ⟨hc.1, hc.2, rfl, ?_⟩
      simp [dIf4, hc, hi] at h
      exact h.symm
    | some i => rw [dIf4_fire tag d st i hc.1 hc.2 hi] at h; simp at h
  · rw [dIf4_id tag d st hc] at h; simp at h

theorem dIf5_error_cases (tag d : String) (st : PState) (e : Err)
    (h : dIf5 tag d st = .error e) :
    tag = "p" ∧ st.state = Mode.step ∧ st.currentStep = none ∧
      e = .attrError "current_step" := by
  by_cases hc : tag = "p" ∧ st.state = Mode.step
  · cases hi : st.currentStep with
    | none =>
      refine ⟨hc.1, hc.2, rfl, ?_⟩
      simp [dIf5, hc, hi] at h
      exact h.symm
    | some i => rw [dIf5_fire tag d st i hc.1 hc.2 hi] at h; simp at h
  · rw [dIf5_id tag d st hc] at h; simp at h

theorem dIf6_error_cases (tag d : String) (st : PState) (e : Err)
    (h : dIf6 tag d st = .error e) :
    tag = "h3" ∧ st.state = Mode.step ∧
      (e = .attrError "current_step" ∨ e = .badPath) := by
  by_cases hc : tag = "h3" ∧ st.state = Mode.step
  · cases hi : st.currentStep with
    | none =>
      refine ⟨hc.1, hc.2, Or.inl ?_⟩
      simp [dIf6, hc, hi] at h
      exact h.symm
    | some i =>
      cases hs : getStepAt st.output i with
      | none =>
        refine ⟨hc.1, hc.2, Or.inr ?_⟩
        simp [dIf6, hc, hi, hs] at h
        exact h.symm
      | some s => rw [dIf6_fire tag d st i s hc.1 hc.2 hi hs] at h; simp at h
  · rw [dIf6_id tag d st hc] at h; simp at h

theorem dIf7_error_cases (tag d : String) (st : PState) (e : Err)
    (h : dIf7 tag d st = .error e) :
    (tag = "span" ∧ st.state = Mode.item ∧ (itemMatch d).isSome = true ∧
      (st.currentItem = none ∧ e = .attrError "current_item" ∨ e = .badPath)) ∨
    (¬(tag = "span" ∧ st.state = Mode.item) ∧ "span" ∈ st.currentTags ∧
      ((st.currentItem = none ∧ e = .attrError "current_item") ∨
       (st.currentKey = none ∧ e = .attrError "current_key") ∨
       e = .badPath ∨
       (∃ p k it, st.currentItem = some p ∧ st.currentKey = some k ∧
         getItemAt st.output p = some it ∧ lookupKV it k = none ∧ e = .keyError))) := by
  by_cases hc : tag = "span" ∧ st.state = Mode.item
  · cases hm : itemMatch d with
    | none => rw [dIf7_nomatch tag d st hc.1 hc.2 hm] at h; simp at h
    | some g =>
      cases hp : st.currentItem with
      | none =>
        refine Or.inl ⟨hc.1, hc.2, by simp [hm], Or.inl ⟨rfl, ?_⟩⟩
        simp [dIf7, hc, hm, hp] at h
        exact h.symm
      | some p =>
        cases hit : getItemAt st.output p with
        | none =>
          refine Or.inl ⟨hc.1, hc.2, by simp [hm], Or.inr ?_⟩
          simp [dIf7, hc, hm, hp, hit] at h
          exact h.symm
        | some it => rw [dIf7_match_fire tag d st g p it hc.1 hc.2 hm hp hit] at h; simp at h
  · by_cases hs : "span" ∈ st.currentTags
    · cases hp : st.currentItem with
      | none =>
        refine Or.inr ⟨hc, hs, Or.inl ⟨rfl, ?_⟩⟩
        simp [dIf7, hc, hs, hp] at h
        exact h.symm
      | some p =>
        cases hk : st.currentKey with
        | none =>
          refine Or.inr ⟨hc, hs, Or.inr (Or.inl ⟨rfl, ?_⟩)⟩
          simp [dIf7, hc, hs, hp, hk] at h
          exact h.symm
        | some k =>
          cases hit : getItemAt st.output p with
          | none =>
            refine Or.inr ⟨hc, hs, Or.inr (Or.inr (Or.inl ?_))⟩
            simp [dIf7, hc, hs, hp, hk, hit] at h
            exact h.symm
          | some it =>
            cases hv : lookupKV it k with
            | none =>
              refine Or.inr ⟨hc, hs, Or.inr (Or.inr (Or.inr ⟨p, k, it, rfl, rfl, hit, hv, ?_⟩))⟩
              simp [dIf7, hc, hs, hp, hk, hit, hv] at h
              exact h.symm
            | some v => rw [dIf7_cont_fire tag d st p k it v hc hs hp hk hit hv] at h; simp at h
    · rw [dIf7_idle tag d st hc hs] at h; simp at h

theorem handle_starttag_error_cases (st : PState) (t : String) (e : Err)
    (h : handle_starttag st t = .error e) :
    t = "ul" ∧ (st.state = Mode.column ∨ st.state = Mode.item) ∧
      (e = .attrError "current_column" ∨ e = .badPath) := by
  by_cases hc : t = "ul" ∧ (st.state = Mode.column ∨ st.state = Mode.item)
  · cases hij : st.currentColumn with
    | none =>
      refine ⟨hc.1, hc.2, Or.inl ?_⟩
      simp [handle_starttag, hc.1, hc.2, hij] at h
      exact h.symm
    | some ij =>
      have hij' : st.currentColumn = some (ij.1, ij.2) := by rw [hij]
      cases hcol : getColumnAt st.output ij.1 ij.2 with
      | none =>
        refine ⟨hc.1, hc.2, Or.inr ?_⟩
        simp [handle_starttag, hc.1, hc.2, hij', hcol] at h
        exact h.symm
      | some col =>
        rw [handle_starttag_fire st t ij.1 ij.2 col hc.1 hc.2 hij' hcol] at h
        simp at h
  · rw [handle_starttag_id st t hc] at h; simp at h

/-- `handle_data` never raises the pop `IndexError`. -/
theorem handle_data_error_not_pop (st : PState) (d : String) (e : Err)
    (h : handle_data st d = .error e) : e ≠ .popEmpty := by
  cases hT : st.currentTags with
  | nil => rw [handle_data_nil st d hT] at h; simp at h
  | cons tag rest =>
    simp only [handle_data, hT] at h
    cases h3 : dIf3 tag d (dIf2 tag d (dIf1 tag d st)) with
    | error e3 =>
      simp only [h3] at h
      injection h with h
      obtain ⟨-, -, he⟩ := dIf3_error_cases _ _ _ _ h3
      subst he; subst h; simp
    | ok st3 =>
      simp only [h3] at h
      cases h4 : dIf4 tag d st3 with
      | error e4 =>
        simp only [h4] at h
        injection h with h
        obtain ⟨-, -, -, he⟩ := dIf4_error_cases _ _ _ _ h4
        subst he; subst h; simp
      | ok st4 =>
        simp only [h4] at h
        cases h5 : dIf5 tag d st4 with
        | error e5 =>
          simp only [h5] at h
          injection h with h
          obtain ⟨-, -, -, he⟩ := dIf5_error_cases _ _ _ _ h5
          subst he; subst h; simp
        | ok st5 =>
          simp only [h5] at h
          cases h6 : dIf6 tag d st5 with
          | error e6 =>
            simp only [h6] at h
            injection h with h
            obtain ⟨-, -, he⟩ := dIf6_error_cases _ _ _ _ h6
            subst h
            rcases he with he | he <;> subst he <;> simp
          | ok st6 =>
            simp only [h6] at h
            rcases dIf7_error_cases _ _ _ _ h with he | he
            · rcases he.2.2.2 with ⟨-, he'⟩ | he' <;> subst he' <;> simp
            · rcases he.2.2 with ⟨-, he'⟩ | ⟨-, he'⟩ | he' | ⟨p, k, it, -, -, -, -, he'⟩ <;>
                subst he' <;> simp

/-! ## C10 -/

/-- C10: a `TagClose` with no open tag is a fatal `IndexError` (the `pop`
on the empty stack); and for every event stream in which every `TagClose`
is matched by an earlier unpopped `TagOpen` (every prefix has at least as
many opens as closes, counting from the starting stack), the pop-failure
branch is never reached. -/
theorem C10_balanced_pops :
    (∀ (st : PState) (t : String), st.currentTags = [] →
      handle_endtag st t = .error .popEmpty) ∧
    (∀ (es : List Event) (st : PState),
      (∀ n, nCloses (List.take n es) ≤ st.currentTags.length + nOpens (List.take n es)) →
      runFrom st es ≠ .error .popEmpty) := by
  constructor
  · intro st t h
    simp [handle_endtag, h]
  · intro es
    induction es with
    | nil => intro st hbal; simp [runFrom]
    | cons e es ih =>
      intro st hbal
      rw [runFrom]
      cases hs : stepEvent st e with
      | error err =>
        cases e with
        | tagOpen t =>
          obtain ⟨-, -, he⟩ := handle_starttag_error_cases st t err hs
          rcases he with he | he <;> subst he <;> simp
        | tagClose t =>
          exfalso
          have h1 := hbal 1
          simp [nCloses, nOpens] at h1
          cases hT : st.currentTags with
          | nil => rw [hT] at h1; simp at h1
          | cons a rest =>
            have : handle_endtag st t = .ok { st with currentTags := rest } := by
              simp [handle_endtag, hT]
            rw [stepEvent] at hs
            rw [this] at hs
            exact absurd hs (by simp)
        | text d =>
          have hne := handle_data_error_not_pop st d err hs
          simpa using hne
      | ok st' =>
        apply ih st'
        intro n
        have hb := hbal (n + 1)
        have hstack := stepEvent_stack st st' e hs
        cases e with
        | tagOpen t =>
          have := hstack.1 t rfl
          simp only [List.take_succ_cons, nCloses, nOpens] at hb
          omega
        | tagClose t =>
          have := hstack.2.1 t rfl
          simp only [List.take_succ_cons, nCloses, nOpens] at hb
          omega
        | text d =>
          have := hstack.2.2 d rfl
          simp only [List.take_succ_cons, nCloses, nOpens] at hb
          omega

/-! ## C7 (amended theorem) -/

theorem updAt_ne_nil {α : Type} (l : List α) (n : Nat) (f : α → α) (h : l ≠ []) :
    updAt l n f ≠ [] := by
  intro hc
  apply h
  have hlen := updAt_length l n f
  rw [hc] at hlen
  exact List.length_eq_zero.mp hlen.symm

theorem noempty_modifyStep (o : Output) (i : Nat) (f : Step → Step)
    (hN : NoEmptySeqs o)
    (hf : ∀ s, s ∈ oSteps o →
      (s.columns ≠ some ([] : List Column) ∧ ∀ c ∈ s.columns.getD [], c.items ≠ some ([] : List Item)) →
      ((f s).columns ≠ some ([] : List Column) ∧
        ∀ c ∈ (f s).columns.getD [], c.items ≠ some ([] : List Item))) :
    NoEmptySeqs (modifyStep o i f) := by
  obtain ⟨hS, hAll⟩ := hN
  refine ⟨by rw [isSome_modifyStep]; exact hS, ?_⟩
  intro s hs
  rw [oSteps_modifyStep] at hs
  rcases mem_updAt hs with hs' | ⟨y, hy, rfl⟩
  · exact hAll s hs'
  · exact hf y hy (hAll y hy)

theorem noempty_colsmap (s : Step) (j : Nat) (fc : Column → Column)
    (hfc : ∀ c ∈ s.columns.getD [], c.items ≠ some ([] : List Item) →
      (fc c).items ≠ some ([] : List Item))
    (hs : s.columns ≠ some ([] : List Column) ∧
      ∀ c ∈ s.columns.getD [], c.items ≠ some ([] : List Item)) :
    (({ s with columns := s.columns.map (fun l => updAt l j fc) } : Step).columns ≠
        some ([] : List Column) ∧
      ∀ c ∈ ({ s with columns := s.columns.map (fun l => updAt l j fc) } : Step).columns.getD [],
        c.items ≠ some ([] : List Item)) := by
  obtain ⟨h1, h2⟩ := hs
  cases hc : s.columns with
  | none => simp [hc]
  | some cols =>
    have hcols : cols ≠ [] := by
      intro hnil
      exact h1 (by rw [hc, hnil])
    constructor
    · simpa [hc] using updAt_ne_nil cols j fc hcols
    · intro c hcmem
      simp only [hc, Option.map_some, Option.getD_some] at hcmem
      rcases mem_updAt hcmem with hm | ⟨y, hy, rfl⟩
      · exact h2 c (by rw [hc]; simpa using hm)
      · exact hfc y (by rw [hc]; simpa using hy) (h2 y (by rw [hc]; simpa using hy))

theorem noempty_itemsmap (c : Column) (k : Nat) (f : Item → Item)
    (h : c.items ≠ some ([] : List Item)) :
    ({ c with items := c.items.map (fun l => updAt l k f) } : Column).items ≠
      some ([] : List Item) := by
  cases hc : c.items with
  | none => simp
  | some its =>
    have hits : its ≠ [] := fun hnil => h (by rw [hc, hnil])
    simpa using updAt_ne_nil its k f hits

theorem noempty_stepEvent (st st' : PState) (e : Event)
    (hN : NoEmptySeqs st.output) (h : stepEvent st e = .ok st') :
    NoEmptySeqs st'.output := by
  cases e with
  | tagClose t =>
    obtain ⟨a, rest, -, rfl⟩ := handle_endtag_cases st st' t h
    exact hN
  | tagOpen t =>
    rcases handle_starttag_cases st st' t h with
      ⟨i, j, col, -, -, -, hcol, rfl⟩ | ⟨-, rfl⟩
    · show NoEmptySeqs (modifyColumn st.output i j _)
      apply noempty_modifyStep _ _ _ hN
      intro s hsmem hsprop
      apply noempty_colsmap s j _ _ hsprop
      intro c _ _
      simp
    · exact hN
  | text d =>
    cases hT : st.currentTags with
    | nil =>
      have h' : handle_data st d = Except.ok st' := h
      rw [handle_data_nil st d hT] at h'
      injection h' with h'
      rw [← h']; exact hN
    | cons tag rest =>
      obtain ⟨st3, st4, st5, st6, h3, h4, h5, h6, h7⟩ := handle_data_ok_decomp st st' d tag rest hT h
      have hN1 : NoEmptySeqs (dIf1 tag d st).output := by
        unfold dIf1; split
        · exact ⟨hN.1, hN.2⟩
        · exact hN
      have hN2 : NoEmptySeqs (dIf2 tag d (dIf1 tag d st)).output := by
        unfold dIf2; split
        · exact ⟨hN1.1, hN1.2⟩
        · exact hN1
      have hN3 : NoEmptySeqs st3.output := by
        rcases dIf3_cases tag d _ st3 h3 with ⟨l, -, hl, rfl⟩ | ⟨-, rfl⟩
        · obtain ⟨hS, hAll⟩ := hN2
          refine ⟨by simp, ?_⟩
          intro s hs
          simp only [oSteps, Option.getD_some] at hs
          rcases List.mem_append.mp hs with hs' | hs'
          · exact hAll s (by simp only [oSteps, hl, Option.getD_some]; exact hs')
          · have : s = newStepOf d := by simpa using hs'
            subst this
            simp [newStepOf]
        · exact hN2
      have hN4 : NoEmptySeqs st4.output := by
        rcases dIf4_cases tag d st3 st4 h4 with ⟨i, -, -, -, rfl⟩ | ⟨-, rfl⟩
        · exact noempty_modifyStep _ _ _ hN3 (fun s _ hp => hp)
        · exact hN3
      have hN5 : NoEmptySeqs st5.output := by
        rcases dIf5_cases tag d st4 st5 h5 with ⟨i, -, -, -, rfl⟩ | ⟨-, rfl⟩
        · exact noempty_modifyStep _ _ _ hN4 (fun s _ hp => hp)
        · exact hN4
      have hN6 : NoEmptySeqs st6.output := by
        rcases dIf6_cases tag d st5 st6 h6 with ⟨i, s, -, -, -, hgs, rfl⟩ | ⟨-, rfl⟩
        · have hsmem : s ∈ oSteps st5.output :=
            mem_of_getq (show (oSteps st5.output)[i]? = some s from hgs)
          apply noempty_modifyStep _ _ _ hN5
          intro y _ _
          constructor
          · simp
          · intro c hcmem
            simp only [Option.getD_some] at hcmem
            rcases List.mem_append.mp hcmem with hc' | hc'
            · exact (hN5.2 s hsmem).2 c hc'
            · have : c = newColOf d := by simpa using hc'
              subst this
              simp [newColOf]
        · exact hN5
      rcases dIf7_cases tag d st6 st' h7 with
        ⟨g, p, it, -, -, -, -, -, rfl⟩ | ⟨-, -, -, rfl⟩ |
        ⟨p, k, it, v, -, -, -, -, -, -, rfl⟩ | ⟨-, -, rfl⟩
      · show NoEmptySeqs (modifyItemAt st6.output p _)
        apply noempty_modifyStep _ _ _ hN6
        intro s _ hsprop
        apply noempty_colsmap s _ _ _ hsprop
        intro c _ hci
        exact noempty_itemsmap c _ _ hci
      · exact hN6
      · show NoEmptySeqs (modifyItemAt st6.output p _)
        apply noempty_modifyStep _ _ _ hN6
        intro s _ hsprop
        apply noempty_colsmap s _ _ _ hsprop
        intro c _ hci
        exact noempty_itemsmap c _ _ hci
      · exact hN6

theorem noempty_runFrom (es : List Event) (st st' : PState)
    (hN : NoEmptySeqs st.output) (h : runFrom st es = .ok st') :
    NoEmptySeqs st'.output := by
  induction es generalizing st with
  | nil =>
    rw [runFrom] at h
    injection h with h
    rw [← h]; exact hN
  | cons e es ih =>
    rw [runFrom] at h
    cases hs : stepEvent st e with
    | error err => rw [hs] at h; simp at h
    | ok st1 =>
      rw [hs] at h
      exact ih st1 (noempty_stepEvent st st1 e hN hs) h

/-- C7 (amended): `Step.columns` and `Column.items` are lazily allocated and
never present as empty arrays, but `Document.steps` is pre-created by
`__init__`: every successful run yields an output whose `"steps"` key is
present (an empty array when no level-2 heading occurred), in which no step
has `columns == []` and no column has `items == []`. -/
theorem C7_lazy_allocation (es : List Event) (st' : PState)
    (h : runEvents es = .ok st') :
    st'.output.steps.isSome = true ∧
    ∀ s ∈ oSteps st'.output, s.columns ≠ some ([] : List Column) ∧
      ∀ c ∈ s.columns.getD [], c.items ≠ some ([] : List Item) :=
  noempty_runFrom es initState st' ⟨rfl, by intro s hs; simp [oSteps, initState] at hs⟩ h

/-- C7 witness. -/
theorem C7_lazy_allocation_witness :
    c1Final.output.steps.isSome = true ∧
    ∀ s ∈ oSteps c1Final.output, s.columns ≠ some ([] : List Column) ∧
      ∀ c ∈ s.columns.getD [], c.items ≠ some ([] : List Item) :=
  C7_lazy_allocation c1Stream c1Final (by rfl)

/-! ## Preservation of the parser-state invariant -/

theorem colsAtO_modifyStep_keep (o : Output) (k : Nat) (f : Step → Step)
    (hf : ∀ s, (f s).columns = s.columns) (i : Nat) :
    colsAtO (modifyStep o k f) i = colsAtO o i := by
  by_cases hik : i = k
  · subst hik
    cases hs : (oSteps o)[i]? with
    | none => simp [colsAtO, oSteps_modifyStep, getq_updAt_self, hs]
    | some s => simp [colsAtO, oSteps_modifyStep, getq_updAt_self, hs, hf]
  · exact colsAtO_modifyStep_ne o k f i hik

theorem itemsAtO_congr (o o' : Output) (i j : Nat) (h : colsAtO o' i = colsAtO o i) :
    itemsAtO o' i j = itemsAtO o i j := by
  unfold itemsAtO
  rw [h]

theorem isSome_modifyColumn (o : Output) (k j : Nat) (fc : Column → Column) :
    (modifyColumn o k j fc).steps.isSome = o.steps.isSome :=
  isSome_modifyStep o k _

theorem nSteps_modifyColumn (o : Output) (k j : Nat) (fc : Column → Column) :
    nSteps (modifyColumn o k j fc) = nSteps o :=
  nSteps_modifyStep o k _

theorem isSome_modifyItemAt (o : Output) (p : Nat × Nat × Nat) (f : Item → Item) :
    (modifyItemAt o p f).steps.isSome = o.steps.isSome :=
  isSome_modifyStep o p.1 _

theorem nSteps_modifyItemAt (o : Output) (p : Nat × Nat × Nat) (f : Item → Item) :
    nSteps (modifyItemAt o p f) = nSteps o :=
  nSteps_modifyStep o p.1 _

theorem colsLenAt_modifyItemAt (o : Output) (p : Nat × Nat × Nat) (f : Item → Item) (i : Nat) :
    colsLenAt (modifyItemAt o p f) i = colsLenAt o i :=
  colsLenAt_modifyColumn o p.1 p.2.1 _ i

theorem inv_transport (st st' : PState)
    (hstate : st'.state = st.state)
    (hstep : st'.currentStep = st.currentStep)
    (hcol : st'.currentColumn = st.currentColumn)
    (hitem : st'.currentItem = st.currentItem)
    (hsome : st'.output.steps.isSome = st.output.steps.isSome)
    (hn : nSteps st'.output = nSteps st.output)
    (hcl : ∀ i, colsLenAt st'.output i = colsLenAt st.output i)
    (hil : ∀ i j, itemsLenAt st'.output i j = itemsLenAt st.output i j)
    (hInv : Inv st) : Inv st' := by
  obtain ⟨h1, h2, h3, h4⟩ := hInv
  have hli : lastIdx st'.output = lastIdx st.output := by rw [lastIdx, hn, lastIdx]
  have hlc : lastColIdx st'.output = lastColIdx st.output := by
    rw [lastColIdx, hli, hcl, lastColIdx]
  refine ⟨by rw [hsome]; exact h1, ?_, ?_, ?_⟩
  · intro hne
    rw [hstate] at hne
    rw [hstep, hli, hn]
    exact h2 hne
  · intro hci
    rw [hstate] at hci
    rw [hcol, hli, hlc, hn, hcl]
    exact h3 hci
  · intro hit
    rw [hstate] at hit
    rw [hitem, hli, hlc, hn, hcl, hil]
    exact h4 hit

theorem inv_ul_fire (st : PState) (t : String) (i j : Nat) (col : Column)
    (hmode : st.state = Mode.column ∨ st.state = Mode.item)
    (hij : st.currentColumn = some (i, j))
    (hcol : getColumnAt st.output i j = some col)
    (hInv : Inv st) :
    Inv { st with
      currentTags := t :: st.currentTags
      state := Mode.item
      output := modifyColumn st.output i j (fun c =>
        { c with items := some ((col.items.getD []) ++ [([] : Item)]) })
      currentItem := some (i, j, (col.items.getD []).length) } := by
  have hne : st.state ≠ Mode.title := by
    rcases hmode with hm | hm <;> rw [hm] <;> decide
  obtain ⟨hcs, hns⟩ := hInv.2.1 hne
  obtain ⟨hcc, -, hcl1⟩ := hInv.2.2.1 hmode
  rw [hcc] at hij
  injection hij with hij
  have hiL : i = lastIdx st.output := (congrArg Prod.fst hij).symm
  have hjC : j = lastColIdx st.output := (congrArg Prod.snd hij).symm
  have hcolq : (colsAtO st.output i)[j]? = some col := by rw [← getColumnAt_eq]; exact hcol
  have hn : nSteps (modifyColumn st.output i j (fun c =>
      { c with items := some ((col.items.getD []) ++ [([] : Item)]) })) = nSteps st.output :=
    nSteps_modifyColumn _ _ _ _
  have hclEq : ∀ i', colsLenAt (modifyColumn st.output i j (fun c =>
      { c with items := some ((col.items.getD []) ++ [([] : Item)]) })) i' =
      colsLenAt st.output i' :=
    fun i' => colsLenAt_modifyColumn _ _ _ _ i'
  have hitems : itemsAtO (modifyColumn st.output i j (fun c =>
      { c with items := some ((col.items.getD []) ++ [([] : Item)]) })) i j =
      (col.items.getD []) ++ [([] : Item)] := by
    rw [itemsAtO, colsAtO_modifyColumn, if_pos rfl, getq_updAt_self, hcolq]
    rfl
  have hLeq : lastIdx (modifyColumn st.output i j (fun c =>
      { c with items := some ((col.items.getD []) ++ [([] : Item)]) })) = lastIdx st.output := by
    rw [lastIdx, hn, lastIdx]
  have hCeq : lastColIdx (modifyColumn st.output i j (fun c =>
      { c with items := some ((col.items.getD []) ++ [([] : Item)]) })) = lastColIdx st.output := by
    rw [lastColIdx, hLeq, hclEq, lastColIdx]
  refine ⟨?_, ?_, ?_, ?_⟩
  · dsimp only
    rw [isSome_modifyColumn]
    exact hInv.1
  · intro _
    dsimp only
    refine ⟨?_, by rw [hn]; exact hns⟩
    rw [hLeq]
    exact hcs
  · intro _
    dsimp only
    refine ⟨?_, by rw [hn]; exact hns, ?_⟩
    · rw [hLeq, hCeq, hcc]
    · rw [hLeq, hclEq]
      exact hcl1
  · intro _
    dsimp only
    refine ⟨?_, by rw [hn]; exact hns, by rw [hLeq, hclEq]; exact hcl1, ?_⟩
    · rw [hLeq, hCeq, ← hiL, ← hjC, itemsLenAt, hitems]
      simp
    · rw [itemsLenAt, hLeq, hCeq, ← hiL, ← hjC, hitems]
      simp

theorem inv_dIf1 (tag d : String) (st : PState) (hInv : Inv st) : Inv (dIf1 tag d st) := by
  unfold dIf1; split
  · exact inv_transport st _ rfl rfl rfl rfl rfl rfl (fun _ => rfl) (fun _ _ => rfl) hInv
  · exact hInv

theorem inv_dIf2 (tag d : String) (st : PState) (hInv : Inv st) : Inv (dIf2 tag d st) := by
  unfold dIf2; split
  · exact inv_transport st _ rfl rfl rfl rfl rfl rfl (fun _ => rfl) (fun _ _ => rfl) hInv
  · exact hInv

theorem inv_dIf3_ok (tag d : String) (st st' : PState)
    (h : dIf3 tag d st = .ok st') (hInv : Inv st) : Inv st' := by
  rcases dIf3_cases tag d st st' h with ⟨l, -, hl, rfl⟩ | ⟨-, rfl⟩
  · refine ⟨by simp, ?_, ?_, ?_⟩
    · intro _
      dsimp only
      constructor
      · rw [lastIdx, nSteps]
        simp [oSteps]
      · rw [nSteps]
        simp [oSteps]
    · intro hcon
      rcases hcon with hcon | hcon <;> simp at hcon
    · intro hcon
      simp at hcon
  · exact hInv

theorem inv_dIf4_ok (tag d : String) (st st' : PState)
    (h : dIf4 tag d st = .ok st') (hInv : Inv st) : Inv st' := by
  rcases dIf4_cases tag d st st' h with ⟨i, -, -, -, rfl⟩ | ⟨-, rfl⟩
  · have hkeep : ∀ i', colsAtO (modifyStep st.output i (fun s =>
        { s with title := d })) i' = colsAtO st.output i' :=
      colsAtO_modifyStep_keep st.output i _ (fun s => rfl)
    refine inv_transport st _ rfl rfl rfl rfl ?_ ?_ ?_ ?_ hInv
    · dsimp only; exact isSome_modifyStep _ _ _
    · dsimp only; exact nSteps_modifyStep _ _ _
    · intro i'
      dsimp only
      simp only [colsLenAt]
      rw [hkeep i']
    · intro i' j'
      dsimp only
      simp only [itemsLenAt]
      rw [itemsAtO_congr st.output _ i' j' (hkeep i')]
  · exact hInv

theorem inv_dIf5_ok (tag d : String) (st st' : PState)
    (h : dIf5 tag d st = .ok st') (hInv : Inv st) : Inv st' := by
  rcases dIf5_cases tag d st st' h with ⟨i, -, -, -, rfl⟩ | ⟨-, rfl⟩
  · have hkeep : ∀ i', colsAtO (modifyStep st.output i (fun s =>
        { s with description := some ((s.description.getD "") ++ d ++ "\n") })) i' =
        colsAtO st.output i' :=
      colsAtO_modifyStep_keep st.output i _ (fun s => rfl)
    refine inv_transport st _ rfl rfl rfl rfl ?_ ?_ ?_ ?_ hInv
    · dsimp only; exact isSome_modifyStep _ _ _
    · dsimp only; exact nSteps_modifyStep _ _ _
    · intro i'
      dsimp only
      simp only [colsLenAt]
      rw [hkeep i']
    · intro i' j'
      dsimp only
      simp only [itemsLenAt]
      rw [itemsAtO_congr st.output _ i' j' (hkeep i')]
  · exact hInv

theorem inv_dIf6_ok (tag d : String) (st st' : PState)
    (h : dIf6 tag d st = .ok st') (hInv : Inv st) : Inv st' := by
  rcases dIf6_cases tag d st st' h with ⟨i, s, -, hst, hcs, hgs, rfl⟩ | ⟨-, rfl⟩
  · have hne : st.state ≠ Mode.title := by rw [hst]; decide
    obtain ⟨hcs', hns⟩ := hInv.2.1 hne
    rw [hcs'] at hcs
    injection hcs with hcs
    have hiL : i = lastIdx st.output := hcs.symm
    have hsq : (oSteps st.output)[i]? = some s := hgs
    have hcaSelf : colsAtO (modifyStep st.output i (fun s' =>
        { s' with columns := some ((s.columns.getD []) ++ [newColOf d]) })) i =
        (s.columns.getD []) ++ [newColOf d] := by
      rw [colsAtO_modifyStep_self st.output i _ s hsq]
      rfl
    have hn : nSteps (modifyStep st.output i (fun s' =>
        { s' with columns := some ((s.columns.getD []) ++ [newColOf d]) })) =
        nSteps st.output := nSteps_modifyStep _ _ _
    have hLeq : lastIdx (modifyStep st.output i (fun s' =>
        { s' with columns := some ((s.columns.getD []) ++ [newColOf d]) })) =
        lastIdx st.output := by
      rw [lastIdx, hn, lastIdx]
    refine ⟨by dsimp only; rw [isSome_modifyStep]; exact hInv.1, ?_, ?_, ?_⟩
    · intro _
      dsimp only
      refine ⟨?_, by rw [hn]; exact hns⟩
      rw [hLeq]
      exact hcs'
    · intro _
      dsimp only
      refine ⟨?_, by rw [hn]; exact hns, ?_⟩
      · rw [hLeq, ← hiL, lastColIdx, hLeq, ← hiL, colsLenAt, hcaSelf]
        simp
      · rw [hLeq, ← hiL, colsLenAt, hcaSelf]
        simp
    · intro hcon
      simp at hcon
  · exact hInv

theorem inv_dIf7_ok (tag d : String) (st st' : PState)
    (h : dIf7 tag d st = .ok st') (hInv : Inv st) : Inv st' := by
  rcases dIf7_cases tag d st st' h with
    ⟨g, p, it, -, -, -, -, -, rfl⟩ | ⟨-, -, -, rfl⟩ |
    ⟨p, k, it, v, -, -, -, -, -, -, rfl⟩ | ⟨-, -, rfl⟩
  · refine inv_transport st _ rfl rfl rfl rfl (isSome_modifyItemAt _ _ _)
      (nSteps_modifyItemAt _ _ _) (fun i' => colsLenAt_modifyItemAt _ _ _ i')
      (fun i' j' => itemsLenAt_modifyItemAt _ _ _ i' j') hInv
  · exact hInv
  · refine inv_transport st _ rfl rfl rfl rfl (isSome_modifyItemAt _ _ _)
      (nSteps_modifyItemAt _ _ _) (fun i' => colsLenAt_modifyItemAt _ _ _ i')
      (fun i' j' => itemsLenAt_modifyItemAt _ _ _ i' j') hInv
  · exact hInv

theorem inv_stepEvent (st st' : PState) (e : Event)
    (hInv : Inv st) (h : stepEvent st e = .ok st') : Inv st' := by
  cases e with
  | tagClose t =>
    obtain ⟨a, rest, -, rfl⟩ := handle_endtag_cases st st' t h
    exact hInv
  | tagOpen t =>
    rcases handle_starttag_cases st st' t h with
      ⟨i, j, col, -, hmode, hij, hcol, rfl⟩ | ⟨-, rfl⟩
    · exact inv_ul_fire st t i j col hmode hij hcol hInv
    · exact hInv
  | text d =>
    cases hT : st.currentTags with
    | nil =>
      have h' : handle_data st d = Except.ok st' := h
      rw [handle_data_nil st d hT] at h'
      injection h' with h'
      rw [← h']; exact hInv
    | cons tag rest =>
      obtain ⟨st3, st4, st5, st6, h3, h4, h5, h6, h7⟩ := handle_data_ok_decomp st st' d tag rest hT h
      exact inv_dIf7_ok tag d st6 st' h7 (inv_dIf6_ok tag d st5 st6 h6 (inv_dIf5_ok tag d st4 st5 h5
        (inv_dIf4_ok tag d st3 st4 h4 (inv_dIf3_ok tag d _ st3 h3
          (inv_dIf2 tag d _ (inv_dIf1 tag d st hInv))))))

theorem inv_initState : Inv initState := by
  refine ⟨rfl, ?_, ?_, ?_⟩
  · intro hcon; exact absurd rfl hcon
  · intro hcon; rcases hcon with hcon | hcon <;> exact absurd hcon (by decide)
  · intro hcon; exact absurd hcon (by decide)

/-! ## C4: refinement against the spec-side steps machine -/

theorem map_updAt_of_keep {α β : Type} (pr : α → β) (l : List α) (n : Nat) (f : α → α)
    (hf : ∀ x, pr (f x) = pr x) : (updAt l n f).map pr = l.map pr := by
  induction l generalizing n with
  | nil => rfl
  | cons a rest ih =>
    cases n with
    | zero => simp [updAt, hf]
    | succ m => simp [updAt, ih]

theorem map_updAt_comm {α β : Type} (pr : α → β) (g : β → β) (l : List α) (n : Nat) (f : α → α)
    (hf : ∀ x, pr (f x) = g (pr x)) : (updAt l n f).map pr = updAt (l.map pr) n g := by
  induction l generalizing n with
  | nil => rfl
  | cons a rest ih =>
    cases n with
    | zero => simp [updAt, hf]
    | succ m => simp [updAt, ih]

theorem projPairs_modifyStep_keep (o : Output) (i : Nat) (f : Step → Step)
    (hf : ∀ s, (f s).navtitle = s.navtitle ∧ (f s).title = s.title) :
    projPairs (modifyStep o i f) = projPairs o := by
  unfold projPairs
  rw [oSteps_modifyStep]
  exact map_updAt_of_keep _ _ _ _ (fun x => by simp [(hf x).1, (hf x).2])

theorem projPairs_modifyColumn (o : Output) (i j : Nat) (fc : Column → Column) :
    projPairs (modifyColumn o i j fc) = projPairs o :=
  projPairs_modifyStep_keep o i
    (fun s => { s with columns := s.columns.map (fun l => updAt l j fc) })
    (fun _ => ⟨rfl, rfl⟩)

theorem projPairs_modifyItemAt (o : Output) (p : Nat × Nat × Nat) (f : Item → Item) :
    projPairs (modifyItemAt o p f) = projPairs o :=
  projPairs_modifyColumn o p.1 p.2.1 _

theorem projPairs_set_steps (o : Output) (l : List Step) :
    projPairs { o with steps := some l } = l.map (fun s => (s.navtitle, s.title)) := rfl

theorem projPairs_dIf1 (tag d : String) (st : PState) :
    projPairs (dIf1 tag d st).output = projPairs st.output := by
  unfold dIf1; split <;> rfl

theorem projPairs_dIf2 (tag d : String) (st : PState) :
    projPairs (dIf2 tag d st).output = projPairs st.output := by
  unfold dIf2; split <;> rfl

theorem specStep_text_stack (a : SpecSM) (d : String) :
    (specStep a (.text d)).stack = a.stack := by
  unfold specStep
  cases hh : a.stack.head? with
  | none => rfl
  | some tag =>
    by_cases h2 : tag = "h2"
    · simp [h2]
    · by_cases hb : tag = "blockquote" ∧ a.mode = Mode.step
      · simp [h2, hb]
      · by_cases h3 : tag = "h3" ∧ a.mode = Mode.step
        · simp [h2, hb, h3]
        · simp [h2, hb, h3]

theorem specStep_text_mode (a : SpecSM) (d : String) :
    (specStep a (.text d)).mode = postMode a.stack a.mode := by
  unfold specStep postMode
  cases hh : a.stack.head? with
  | none => rfl
  | some tag =>
    by_cases h2 : tag = "h2"
    · simp [h2]
    · by_cases hb : tag = "blockquote" ∧ a.mode = Mode.step
      · simp [h2, hb.1, hb.2]
      · by_cases h3 : tag = "h3" ∧ a.mode = Mode.step
        · simp [h2, hb, h3, h3.1, h3.2]
        · simp [h2, hb, h3]

theorem specStep_text_pairs (a : SpecSM) (d : String) :
    (specStep a (.text d)).pairs =
      (match a.stack.head? with
       | none => a.pairs
       | some tag =>
         if tag = "h2" then a.pairs ++ [(d, d)]
         else if tag = "blockquote" ∧ a.mode = Mode.step then
           updAt a.pairs (a.pairs.length - 1) (fun pr => (pr.1, d))
         else a.pairs) := by
  unfold specStep
  cases hh : a.stack.head? with
  | none => rfl
  | some tag =>
    by_cases h2 : tag = "h2"
    · simp [h2]
    · by_cases hb : tag = "blockquote" ∧ a.mode = Mode.step
      · simp [h2, hb]
      · by_cases h3 : tag = "h3" ∧ a.mode = Mode.step
        · simp [h2, hb, h3]
        · simp [h2, hb, h3]

theorem spec_rel_stepEvent (st st' : PState) (a : SpecSM) (e : Event)
    (hInv : Inv st)
    (hstack : a.stack = st.currentTags) (hmode : a.mode = st.state)
    (hpairs : a.pairs = projPairs st.output)
    (h : stepEvent st e = .ok st') :
    (specStep a e).stack = st'.currentTags ∧ (specStep a e).mode = st'.state ∧
    (specStep a e).pairs = projPairs st'.output := by
  cases e with
  | tagOpen t =>
    rcases handle_starttag_cases st st' t h with
      ⟨i, j, col, ht, hm, hij, hcol, rfl⟩ | ⟨hn, rfl⟩
    · have hcond : t = "ul" ∧ (a.mode = Mode.column ∨ a.mode = Mode.item) :=
        ⟨ht, by rw [hmode]; exact hm⟩
      refine ⟨by simp [specStep, hstack], by simp [specStep, hcond], ?_⟩
      dsimp only [specStep]
      rw [hpairs]
      exact (projPairs_modifyColumn st.output i j _).symm
    · refine ⟨by simp [specStep, hstack], ?_, by simp [specStep, hpairs]⟩
      dsimp only [specStep]
      rw [hmode, if_neg hn]
  | tagClose t =>
    obtain ⟨x, rest, hT, rfl⟩ := handle_endtag_cases st st' t h
    exact ⟨by simp [specStep, hstack, hT], by simp [specStep, hmode], by simp [specStep, hpairs]⟩
  | text d =>
    have htm := handle_data_tm st st' d h
    refine ⟨?_, ?_, ?_⟩
    · rw [specStep_text_stack, hstack, htm.1]
    · rw [specStep_text_mode, htm.2, hstack, hmode]
    · rw [specStep_text_pairs]
      cases hT : st.currentTags with
      | nil =>
        have h' : handle_data st d = Except.ok st' := h
        rw [handle_data_nil st d hT] at h'
        injection h' with h'
        subst h'
        have hh : a.stack.head? = none := by rw [hstack, hT]; rfl
        simp [hh, hpairs]
      | cons tag rest =>
        have hh : a.stack.head? = some tag := by rw [hstack, hT]; rfl
        obtain ⟨st3, st4, st5, st6, h3, h4, h5, h6, h7⟩ :=
          handle_data_ok_decomp st st' d tag rest hT h
        have hInv2 : Inv (dIf2 tag d (dIf1 tag d st)) := inv_dIf2 _ _ _ (inv_dIf1 _ _ _ hInv)
        have hInv3 : Inv st3 := inv_dIf3_ok _ _ _ _ h3 hInv2
        have hp2 : projPairs (dIf2 tag d (dIf1 tag d st)).output = projPairs st.output := by
          rw [projPairs_dIf2, projPairs_dIf1]
        have hp7 : projPairs st'.output = projPairs st6.output := by
          rcases dIf7_cases tag d st6 st' h7 with
            ⟨g, p, it, -, -, -, -, -, rfl⟩ | ⟨-, -, -, rfl⟩ |
            ⟨p, k, it, v, -, -, -, -, -, -, rfl⟩ | ⟨-, -, rfl⟩
          · exact projPairs_modifyItemAt _ _ _
          · rfl
          · exact projPairs_modifyItemAt _ _ _
          · rfl
        have hp6 : projPairs st6.output = projPairs st5.output := by
          rcases dIf6_cases tag d st5 st6 h6 with ⟨i, s, -, -, -, -, rfl⟩ | ⟨-, rfl⟩
          · exact projPairs_modifyStep_keep _ _ _ (fun s' => ⟨rfl, rfl⟩)
          · rfl
        have hp5 : projPairs st5.output = projPairs st4.output := by
          rcases dIf5_cases tag d st4 st5 h5 with ⟨i, -, -, -, rfl⟩ | ⟨-, rfl⟩
          · exact projPairs_modifyStep_keep _ _ _ (fun s' => ⟨rfl, rfl⟩)
          · rfl
        by_cases htag2 : tag = "h2"
        · rcases dIf3_cases tag d _ st3 h3 with ⟨l, -, hl, hst3⟩ | ⟨hneq, -⟩
          · have hl' : oSteps (dIf2 tag d (dIf1 tag d st)).output = l := by
              simp [oSteps, hl]
            have hp3 : projPairs st3.output = projPairs st.output ++ [(d, d)] := by
              rw [hst3]
              show projPairs { (dIf2 tag d (dIf1 tag d st)).output with
                steps := some (l ++ [newStepOf d]) } = projPairs st.output ++ [(d, d)]
              rw [projPairs_set_steps, List.map_append, ← hl']
              rw [show ((oSteps (dIf2 tag d (dIf1 tag d st)).output).map
                  (fun s => (s.navtitle, s.title))) = projPairs st.output from hp2]
              rfl
            have hp4 : projPairs st4.output = projPairs st3.output := by
              rcases dIf4_cases tag d _ st4 h4 with ⟨i, hbq, -, -, hst4⟩ | ⟨-, hst4⟩
              · rw [htag2] at hbq; exact absurd hbq (by decide)
              · rw [hst4]
            rw [hh]
            simp only [htag2, if_pos]
            rw [hpairs, hp7, hp6, hp5, hp4, hp3]
          · exact absurd htag2 hneq
        · have hst3 : st3 = dIf2 tag d (dIf1 tag d st) := by
            rcases dIf3_cases tag d _ st3 h3 with ⟨l, htag2', -, -⟩ | ⟨-, rfl⟩
            · exact absurd htag2' htag2
            · rfl
          have hstate3 : st3.state = st.state := by
            rw [hst3, dIf2_state, dIf1_state]
          by_cases hbq : tag = "blockquote" ∧ st.state = Mode.step
          · rcases dIf4_cases tag d st3 st4 h4 with ⟨i, -, hstate3', hcs3, hst4⟩ | ⟨hnfire, -⟩
            · have hne3 : st3.state ≠ Mode.title := by rw [hstate3']; decide
              obtain ⟨hcs3', -⟩ := hInv3.2.1 hne3
              rw [hcs3'] at hcs3
              injection hcs3 with hcs3
              have hp4 : projPairs st4.output =
                  updAt (projPairs st3.output) i (fun pr => (pr.1, d)) := by
                rw [hst4]
                show projPairs (modifyStep st3.output i (fun s => { s with title := d })) = _
                unfold projPairs
                rw [oSteps_modifyStep]
                exact map_updAt_comm _ _ _ _ _ (fun s => rfl)
              rw [hh]
              simp only [htag2, if_neg, ite_false]
              have hbq' : tag = "blockquote" ∧ a.mode = Mode.step :=
                ⟨hbq.1, by rw [hmode]; exact hbq.2⟩
              rw [if_pos hbq']
              rw [hpairs, hp7, hp6, hp5, hp4]
              have hlen : (projPairs st.output).length = nSteps st3.output := by
                rw [← hp2, ← hst3]
                simp [projPairs, nSteps, List.length_map]
              have hidx : i = (projPairs st.output).length - 1 := by
                rw [hlen, ← hcs3, lastIdx]
              rw [hidx, hst3, hp2]
            · exact absurd ⟨hbq.1, by rw [hstate3]; exact hbq.2⟩ hnfire
          · have hp4 : projPairs st4.output = projPairs st3.output := by
              rcases dIf4_cases tag d st3 st4 h4 with ⟨i, hbq1, hbq2, -, hst4⟩ | ⟨-, hst4⟩
              · exact absurd ⟨hbq1, by rw [← hstate3]; exact hbq2⟩ hbq
              · rw [hst4]
            rw [hh]
            simp only [htag2, if_neg, ite_false]
            have hbq' : ¬(tag = "blockquote" ∧ a.mode = Mode.step) := by
              rw [hmode]; exact hbq
            rw [if_neg hbq']
            rw [hpairs, hp7, hp6, hp5, hp4, hst3, hp2]

theorem spec_rel_runFrom (es : List Event) (st st' : PState) (a : SpecSM)
    (hInv : Inv st)
    (hstack : a.stack = st.currentTags) (hmode : a.mode = st.state)
    (hpairs : a.pairs = projPairs st.output)
    (h : runFrom st es = .ok st') :
    (es.foldl specStep a).stack = st'.currentTags ∧
    (es.foldl specStep a).mode = st'.state ∧
    (es.foldl specStep a).pairs = projPairs st'.output := by
  induction es generalizing st a with
  | nil =>
    rw [runFrom] at h
    injection h with h
    subst h
    exact ⟨hstack, hmode, hpairs⟩
  | cons e es ih =>
    rw [runFrom] at h
    cases hs : stepEvent st e with
    | error err => rw [hs] at h; simp at h
    | ok st1 =>
      rw [hs] at h
      obtain ⟨h1, h2, h3⟩ := spec_rel_stepEvent st st1 a e hInv hstack hmode hpairs hs
      exact ih st1 (specStep a e) (inv_stepEvent st st1 e hInv hs) h1 h2 h3 h

theorem specFold_pairs_length (es : List Event) (a : SpecSM) :
    ((es.foldl specStep a).pairs).length = a.pairs.length + countH2From a.stack es := by
  induction es generalizing a with
  | nil => simp [countH2From]
  | cons e es ih =>
    rw [List.foldl_cons, ih]
    cases e with
    | tagOpen t => simp [specStep, countH2From]
    | tagClose t => simp [specStep, countH2From]
    | text d =>
      have hst := specStep_text_stack a d
      rw [hst, specStep_text_pairs]
      cases hh : a.stack.head? with
      | none => simp [countH2From, hh]
      | some tag =>
        by_cases h2 : tag = "h2"
        · subst h2
          simp [countH2From, hh, List.length_append]
          omega
        · by_cases hb : tag = "blockquote" ∧ a.mode = Mode.step
          · simp [countH2From, hh, h2, hb, updAt_length]
          · simp [countH2From, hh, h2, hb]

/-- C4: refinement of the step bookkeeping against the spec-side machine:
after any successful run, the real output's `(navtitle, title)` pairs, one
per step in source order, are exactly those built by the spec-side machine
(one pair `(text, text)` per level-2 heading text event, with only the
`title` component overwritten by a quote-block text arriving in Step mode),
and the number of steps equals the number of level-2 heading text events.
(The code never inspects nesting depth, so *every* text event whose
innermost open tag is `h2` is counted, which for the root-level headings of
the claim is the same number.) -/
theorem C4_steps_refinement (es : List Event) (st' : PState)
    (h : runEvents es = .ok st') :
    projPairs st'.output = (specRun es).pairs ∧
    nSteps st'.output = countH2 es := by
  have hrel := spec_rel_runFrom es initState st' ⟨[], Mode.title, []⟩
    inv_initState rfl rfl rfl h
  have hlen := specFold_pairs_length es ⟨[], Mode.title, []⟩
  constructor
  · exact hrel.2.2.symm
  · have hproj : (projPairs st'.output).length = nSteps st'.output := by
      simp [projPairs, nSteps, List.length_map]
    rw [← hproj, ← hrel.2.2]
    simpa [specRun, countH2] using hlen

/-- C4 witness. -/
theorem C4_steps_refinement_witness :
    projPairs c1Final.output = (specRun c1Stream).pairs ∧
    nSteps c1Final.output = countH2 c1Stream :=
  C4_steps_refinement c1Stream c1Final (by rfl)

theorem inv_runFrom (es : List Event) (st st' : PState)
    (hInv : Inv st) (h : runFrom st es = .ok st') : Inv st' := by
  induction es generalizing st with
  | nil =>
    rw [runFrom] at h
    injection h with h
    rw [← h]; exact hInv
  | cons e es ih =>
    rw [runFrom] at h
    cases hs : stepEvent st e with
    | error err => rw [hs] at h; simp at h
    | ok st1 =>
      rw [hs] at h
      exact ih st1 (inv_stepEvent st st1 e hInv hs) h

/-- C10 witness: the pop-error branch is unreachable on a concrete balanced
stream. -/
theorem C10_balanced_pops_witness :
    handle_endtag initState "p" = .error .popEmpty ∧
    runFrom initState [.tagOpen "h1", .text "T", .tagClose "h1"] ≠ .error .popEmpty := by
  constructor
  · exact C10_balanced_pops.1 initState "p" rfl
  · apply C10_balanced_pops.2 [.tagOpen "h1", .text "T", .tagClose "h1"] initState
    intro n
    rcases Nat.lt_or_ge n 4 with h | h
    · interval_cases n <;> decide
    · rw [List.take_of_length_le (Nat.le_trans (by decide) h)]
      decide

/-! ## C2: structural lemmas for tracking the established current key -/

theorem handle_endtag_error (st : PState) (t : String) (e : Err)
    (h : handle_endtag st t = .error e) : e = .popEmpty := by
  cases hT : st.currentTags with
  | nil =>
    simp only [handle_endtag, hT] at h
    injection h with h
    exact h.symm
  | cons a rest => simp [handle_endtag, hT] at h

theorem dIf1_steps (tag d : String) (st : PState) :
    (dIf1 tag d st).output.steps = st.output.steps := by
  unfold dIf1; split <;> rfl

theorem dIf2_steps (tag d : String) (st : PState) :
    (dIf2 tag d st).output.steps = st.output.steps := by
  unfold dIf2; split <;> rfl

theorem dIf12_steps (tag d : String) (st : PState) :
    (dIf2 tag d (dIf1 tag d st)).output.steps = st.output.steps := by
  rw [dIf2_steps, dIf1_steps]

theorem getItemAt_steps_congr (o o' : Output) (h : o'.steps = o.steps) (p : Nat × Nat × Nat) :
    getItemAt o' p = getItemAt o p := by
  unfold getItemAt getColumnAt getStepAt
  rw [h]

theorem getItemAt_some_inv (o : Output) (p : Nat × Nat × Nat) (it : Item)
    (h : getItemAt o p = some it) :
    ∃ s c, (oSteps o)[p.1]? = some s ∧ (s.columns.getD [])[p.2.1]? = some c ∧
      (c.items.getD [])[p.2.2]? = some it := by
  rw [getItemAt_eq] at h
  unfold itemsAtO at h
  cases hc : (colsAtO o p.1)[p.2.1]? with
  | none =>
    simp only [hc] at h
    simp at h
  | some c =>
    simp only [hc] at h
    unfold colsAtO at hc
    cases hs : (oSteps o)[p.1]? with
    | none =>
      simp only [hs] at hc
      simp at hc
    | some s =>
      simp only [hs] at hc
      exact ⟨s, c, rfl, hc, h⟩

theorem getItemAt_modifyStep_keep (o : Output) (k : Nat) (f : Step → Step)
    (hf : ∀ s, (f s).columns = s.columns) (p : Nat × Nat × Nat) :
    getItemAt (modifyStep o k f) p = getItemAt o p := by
  rw [getItemAt_eq, getItemAt_eq]
  rw [itemsAtO_congr o (modifyStep o k f) p.1 p.2.1 (colsAtO_modifyStep_keep o k f hf p.1)]

theorem getItemAt_append_step (o : Output) (l : List Step) (s' : Step)
    (p : Nat × Nat × Nat) (it : Item) (hl : o.steps = some l)
    (h : getItemAt o p = some it) :
    getItemAt { o with steps := some (l ++ [s']) } p = some it := by
  obtain ⟨s, c, hs, hc, hit⟩ := getItemAt_some_inv o p it h
  have hlo : oSteps o = l := by rw [oSteps, hl]; rfl
  rw [hlo] at hs
  have hlt : p.1 < l.length := (List.getElem?_eq_some.mp hs).1
  have hs' : (oSteps { o with steps := some (l ++ [s']) })[p.1]? = some s := by
    have h1 : oSteps { o with steps := some (l ++ [s']) } = l ++ [s'] := rfl
    rw [h1, List.getElem?_append_left hlt]
    exact hs
  rw [getItemAt_eq]
  unfold itemsAtO colsAtO
  simp only [hs', hc, hit]

theorem getItemAt_colappend (o : Output) (i : Nat) (s : Step) (newc : Column)
    (p : Nat × Nat × Nat) (it : Item)
    (hs : (oSteps o)[i]? = some s)
    (h : getItemAt o p = some it) :
    getItemAt (modifyStep o i (fun s' =>
      { s' with columns := some ((s.columns.getD []) ++ [newc]) })) p = some it := by
  obtain ⟨s0, c, hs0, hc0, hit0⟩ := getItemAt_some_inv o p it h
  rw [getItemAt_eq]
  unfold itemsAtO
  by_cases hip : p.1 = i
  · have hs0' : s0 = s := by
      rw [hip, hs] at hs0
      injection hs0 with hs0
      exact hs0.symm
    rw [hs0'] at hc0
    have hcols : colsAtO (modifyStep o i (fun s' =>
        { s' with columns := some ((s.columns.getD []) ++ [newc]) })) p.1 =
        (s.columns.getD []) ++ [newc] := by
      rw [hip, colsAtO_modifyStep_self o i (fun s' =>
        { s' with columns := some ((s.columns.getD []) ++ [newc]) }) s hs]
      rfl
    rw [hcols]
    have hlt : p.2.1 < (s.columns.getD []).length := (List.getElem?_eq_some.mp hc0).1
    rw [List.getElem?_append_left hlt]
    simp only [hc0, hit0]
  · have hcols : colsAtO (modifyStep o i (fun s' =>
        { s' with columns := some ((s.columns.getD []) ++ [newc]) })) p.1 =
        colsAtO o p.1 := colsAtO_modifyStep_ne o i _ p.1 hip
    rw [hcols]
    unfold colsAtO
    simp only [hs0, hc0, hit0]

theorem getItemAt_modifyItemAt_self (o : Output) (p : Nat × Nat × Nat) (f : Item → Item)
    (it : Item) (h : getItemAt o p = some it) :
    getItemAt (modifyItemAt o p f) p = some (f it) := by
  obtain ⟨s, c, hs, hc, hit⟩ := getItemAt_some_inv o p it h
  have hcq : (colsAtO o p.1)[p.2.1]? = some c := by
    unfold colsAtO
    simp only [hs]
    exact hc
  have hq : (itemsAtO o p.1 p.2.1)[p.2.2]? = some it := by
    rw [← getItemAt_eq]; exact h
  rw [getItemAt_eq, itemsAtO_modifyItemAt_self o p f c hcq, getq_updAt_self, hq]
  rfl

theorem lookupKV_setKV_self (it : Item) (k v : String) :
    lookupKV (setKV it k v) k = some v := by
  induction it with
  | nil => simp [setKV, lookupKV]
  | cons a rest ih =>
    obtain ⟨k', v'⟩ := a
    by_cases hk : k' = k
    · simp [setKV, lookupKV, hk]
    · simp [setKV, lookupKV, hk, ih]

/-- The tag stack and mode after the first six branches of `handle_data`
(the mode transitions are the same as those of the full event, since the
final span branch never changes them). -/
theorem stages_tm (tag d : String) (rest : List String) (st st3 st4 st5 st6 : PState)
    (hT : st.currentTags = tag :: rest)
    (h3 : dIf3 tag d (dIf2 tag d (dIf1 tag d st)) = .ok st3)
    (h4 : dIf4 tag d st3 = .ok st4)
    (h5 : dIf5 tag d st4 = .ok st5)
    (h6 : dIf6 tag d st5 = .ok st6) :
    st6.currentTags = st.currentTags ∧ st6.state = postMode st.currentTags st.state := by
  have t3 := dIf3_ok_tags _ _ _ _ h3
  have t4 := dIf4_ok_tags _ _ _ _ h4
  have t5 := dIf5_ok_tags _ _ _ _ h5
  have t6 := dIf6_ok_tags _ _ _ _ h6
  have s3 := dIf3_ok_state _ _ _ _ h3
  have s4 := dIf4_ok_state _ _ _ _ h4
  have s5 := dIf5_ok_state _ _ _ _ h5
  have s6 := dIf6_ok_state _ _ _ _ h6
  rw [dIf2_tags, dIf1_tags] at t3
  rw [dIf2_state, dIf1_state] at s3
  constructor
  · rw [t6, t5, t4, t3]
  · rw [s6, s5, s4, s3]
    by_cases htag : tag = "h2"
    · simp [postMode, hT, htag]
    · simp only [if_neg htag]
      simp [postMode, hT, htag]

/-! ## C2: transport of the established-key facts along an event -/

theorem est_transport (st st' : PState)
    (hI : st'.currentItem = st.currentItem) (hK : st'.currentKey = st.currentKey)
    (hS : st'.output.steps = st.output.steps) (h : EstFacts st) : EstFacts st' := by
  obtain ⟨p, k, it, h1, h2, h3, h4⟩ := h
  exact ⟨p, k, it, by rw [hI]; exact h1, by rw [hK]; exact h2,
         by rw [getItemAt_steps_congr st.output st'.output hS]; exact h3, h4⟩

theorem est_dIf1 (tag d : String) (st : PState) (h : EstFacts st) :
    EstFacts (dIf1 tag d st) := by
  unfold dIf1; split
  · exact est_transport st _ rfl rfl rfl h
  · exact h

theorem est_dIf2 (tag d : String) (st : PState) (h : EstFacts st) :
    EstFacts (dIf2 tag d st) := by
  unfold dIf2; split
  · exact est_transport st _ rfl rfl rfl h
  · exact h

theorem est_dIf3_ok (tag d : String) (st st' : PState)
    (h : dIf3 tag d st = .ok st') (hE : EstFacts st) : EstFacts st' := by
  rcases dIf3_cases tag d st st' h with ⟨l, -, hl, rfl⟩ | ⟨-, rfl⟩
  · obtain ⟨p, k, it, h1, h2, hg, h4⟩ := hE
    exact ⟨p, k, it, h1, h2, getItemAt_append_step st.output l (newStepOf d) p it hl hg, h4⟩
  · exact hE

theorem est_dIf4_ok (tag d : String) (st st' : PState)
    (h : dIf4 tag d st = .ok st') (hE : EstFacts st) : EstFacts st' := by
  rcases dIf4_cases tag d st st' h with ⟨i, -, -, -, rfl⟩ | ⟨-, rfl⟩
  · obtain ⟨p, k, it, h1, h2, hg, h4⟩ := hE
    exact ⟨p, k, it, h1, h2,
      (getItemAt_modifyStep_keep st.output i (fun s => { s with title := d })
        (fun s => rfl) p).trans hg, h4⟩
  · exact hE

theorem est_dIf5_ok (tag d : String) (st st' : PState)
    (h : dIf5 tag d st = .ok st') (hE : EstFacts st) : EstFacts st' := by
  rcases dIf5_cases tag d st st' h with ⟨i, -, -, -, rfl⟩ | ⟨-, rfl⟩
  · obtain ⟨p, k, it, h1, h2, hg, h4⟩ := hE
    exact ⟨p, k, it, h1, h2,
      (getItemAt_modifyStep_keep st.output i (fun s =>
        { s with description := some ((s.description.getD "") ++ d ++ "\n") })
        (fun s => rfl) p).trans hg, h4⟩
  · exact hE

theorem est_dIf6_ok (tag d : String) (st st' : PState)
    (h : dIf6 tag d st = .ok st') (hE : EstFacts st) : EstFacts st' := by
  rcases dIf6_cases tag d st st' h with ⟨i, s, -, -, -, hgs, rfl⟩ | ⟨-, rfl⟩
  · obtain ⟨p, k, it, h1, h2, hg, h4⟩ := hE
    exact ⟨p, k, it, h1, h2, getItemAt_colappend st.output i s (newColOf d) p it hgs hg, h4⟩
  · exact hE

/-- EstFacts survives the first six branches of a text event. -/
theorem est_stages (tag d : String) (st st3 st4 st5 st6 : PState)
    (h3 : dIf3 tag d (dIf2 tag d (dIf1 tag d st)) = .ok st3)
    (h4 : dIf4 tag d st3 = .ok st4)
    (h5 : dIf5 tag d st4 = .ok st5)
    (h6 : dIf6 tag d st5 = .ok st6)
    (hE : EstFacts st) : EstFacts st6 :=
  est_dIf6_ok _ _ _ _ h6 (est_dIf5_ok _ _ _ _ h5 (est_dIf4_ok _ _ _ _ h4
    (est_dIf3_ok _ _ _ _ h3 (est_dIf2 _ _ _ (est_dIf1 _ _ _ hE)))))

/-! ## C2: one-step unfoldings of the trace predicate -/

theorem estOK_cons_open (st : PState) (est : Bool) (t : String) (es : List Event) :
    estOKFrom st est (Event.tagOpen t :: es) =
      (match stepEvent st (Event.tagOpen t) with
       | .ok st' => estOKFrom st'
           (if t = "ul" ∧ (st.state = Mode.column ∨ st.state = Mode.item) then false else est) es
       | .error _ => true) := rfl

theorem estOK_cons_close (st : PState) (est : Bool) (t : String) (es : List Event) :
    estOKFrom st est (Event.tagClose t :: es) =
      (match stepEvent st (Event.tagClose t) with
       | .ok st' => estOKFrom st' est es
       | .error _ => true) := rfl

theorem estOK_cons_text (st : PState) (est : Bool) (d : String) (es : List Event) :
    estOKFrom st est (Event.text d :: es) =
      ((!(elifFires st) || est) &&
       (match stepEvent st (Event.text d) with
        | .ok st' => estOKFrom st'
            (if st.currentTags.head? = some "span" ∧ st.state = Mode.item ∧ (itemMatch d).isSome
             then true else est) es
        | .error _ => true)) := rfl

/-- Which errors a text event can raise when the invariant holds and — in
case the continuation branch runs — a current key is established: none of
`AttributeError current_item`, `AttributeError current_key`, `KeyError`. -/
theorem text_error_classify (st : PState) (d : String) (err : Err)
    (hInv : Inv st) (hE : elifFires st = true → EstFacts st)
    (h : handle_data st d = .error err) :
    err ≠ .attrError "current_item" ∧ err ≠ .attrError "current_key" ∧ err ≠ .keyError := by
  cases hT : st.currentTags with
  | nil =>
    rw [handle_data_nil st d hT] at h
    simp at h
  | cons tag rest =>
    simp only [handle_data, hT] at h
    cases h3 : dIf3 tag d (dIf2 tag d (dIf1 tag d st)) with
    | error e3 =>
      simp only [h3] at h
      injection h with h
      subst h
      obtain ⟨-, hnone, -⟩ := dIf3_error_cases _ _ _ _ h3
      exfalso
      rw [dIf12_steps] at hnone
      have h1 := hInv.1
      rw [hnone] at h1
      simp at h1
    | ok st3 =>
      simp only [h3] at h
      cases h4 : dIf4 tag d st3 with
      | error e4 =>
        simp only [h4] at h
        injection h with h
        subst h
        obtain ⟨-, -, -, he⟩ := dIf4_error_cases _ _ _ _ h4
        subst he
        exact ⟨by simp, by simp, by simp⟩
      | ok st4 =>
        simp only [h4] at h
        cases h5 : dIf5 tag d st4 with
        | error e5 =>
          simp only [h5] at h
          injection h with h
          subst h
          obtain ⟨-, -, -, he⟩ := dIf5_error_cases _ _ _ _ h5
          subst he
          exact ⟨by simp, by simp, by simp⟩
        | ok st5 =>
          simp only [h5] at h
          cases h6 : dIf6 tag d st5 with
          | error e6 =>
            simp only [h6] at h
            injection h with h
            subst h
            obtain ⟨-, -, he⟩ := dIf6_error_cases _ _ _ _ h6
            rcases he with he | he <;> subst he <;> exact ⟨by simp, by simp, by simp⟩
          | ok st6 =>
            simp only [h6] at h
            have hInv6 : Inv st6 :=
              inv_dIf6_ok _ _ _ _ h6 (inv_dIf5_ok _ _ _ _ h5 (inv_dIf4_ok _ _ _ _ h4
                (inv_dIf3_ok _ _ _ _ h3 (inv_dIf2 _ _ _ (inv_dIf1 _ _ st hInv)))))
            have htm := stages_tm tag d rest st st3 st4 st5 st6 hT h3 h4 h5 h6
            rcases dIf7_error_cases _ _ _ _ h with ⟨-, hst6, -, hca⟩ | ⟨hnot, hspan, hca⟩
            · rcases hca with ⟨hci, -⟩ | he
              · exfalso
                obtain ⟨hci', -⟩ := hInv6.2.2.2 hst6
                rw [hci'] at hci
                simp at hci
              · subst he
                exact ⟨by simp, by simp, by simp⟩
            · have hmem : "span" ∈ st.currentTags := htm.1 ▸ hspan
              have hnp : ¬(st.currentTags.head? = some "span" ∧
                  postMode st.currentTags st.state = Mode.item) := by
                rintro ⟨hh, hpm⟩
                rw [hT] at hh
                simp at hh
                exact hnot ⟨hh, by rw [htm.2]; exact hpm⟩
              have hfire : elifFires st = true := by
                have h1 : decide ("span" ∈ st.currentTags) = true := decide_eq_true hmem
                have h2 : (decide (st.currentTags.head? = some "span") &&
                    decide (postMode st.currentTags st.state = Mode.item)) = false := by
                  rcases Bool.eq_false_or_eq_true
                      (decide (st.currentTags.head? = some "span")) with hb | hb
                  · rw [hb]
                    show decide (postMode st.currentTags st.state = Mode.item) = false
                    apply decide_eq_false
                    intro hpm
                    exact hnp ⟨of_decide_eq_true hb, hpm⟩
                  · rw [hb]
                    rfl
                unfold elifFires
                rw [h1, h2]
                rfl
              obtain ⟨p0, k0, it0, hp0, hk0, hit0, hlk0⟩ :=
                est_stages tag d st st3 st4 st5 st6 h3 h4 h5 h6 (hE hfire)
              rcases hca with ⟨hci, -⟩ | ⟨hck, -⟩ | he | ⟨p, k, it, hp, hk, hit, hlk, -⟩
              · rw [hp0] at hci
                simp at hci
              · rw [hk0] at hck
                simp at hck
              · subst he
                exact ⟨by simp, by simp, by simp⟩
              · exfalso
                rw [hp0] at hp
                injection hp with hp
                subst hp
                rw [hk0] at hk
                injection hk with hk
                subst hk
                rw [hit0] at hit
                injection hit with hit
                subst hit
                rw [hlk] at hlk0
                simp at hlk0

/-- Along any run whose continuation-branch texts are all covered by a
previously matching `key: value` span (the `estOKFrom` trace condition),
the parser never aborts with a missing `current_item`/`current_key`
attribute or a missing item key. -/
theorem estOK_no_key_err (es : List Event) (st : PState) (est : Bool)
    (hInv : Inv st) (hE : est = true → EstFacts st)
    (hok : estOKFrom st est es = true) :
    runFrom st es ≠ .error (.attrError "current_item") ∧
    runFrom st es ≠ .error (.attrError "current_key") ∧
    runFrom st es ≠ .error .keyError := by
  induction es generalizing st est with
  | nil =>
    rw [runFrom]
    exact ⟨fun hcon => Except.noConfusion hcon, fun hcon => Except.noConfusion hcon,
           fun hcon => Except.noConfusion hcon⟩
  | cons e es ih =>
    rw [runFrom]
    cases e with
    | tagOpen t =>
      cases hs : stepEvent st (Event.tagOpen t) with
      | error err =>
        obtain ⟨-, -, he⟩ := handle_starttag_error_cases st t err hs
        refine ⟨fun hcon => ?_, fun hcon => ?_, fun hcon => ?_⟩ <;>
          simp only [] at hcon <;>
          rcases he with he | he <;> rw [he] at hcon <;> simp at hcon
      | ok st1 =>
        have h1 : estOKFrom st1
            (if t = "ul" ∧ (st.state = Mode.column ∨ st.state = Mode.item)
             then false else est) es = true := by
          rw [estOK_cons_open, hs] at hok
          exact hok
        by_cases hc : t = "ul" ∧ (st.state = Mode.column ∨ st.state = Mode.item)
        · rw [if_pos hc] at h1
          exact ih st1 false (inv_stepEvent st st1 _ hInv hs)
            (fun hcon => absurd hcon (by simp)) h1
        · rw [if_neg hc] at h1
          have hE1 : est = true → EstFacts st1 := by
            intro he
            rcases handle_starttag_cases st st1 t hs with
              ⟨i, j, col, ht, hm, -, -, -⟩ | ⟨-, hst1⟩
            · exact absurd ⟨ht, hm⟩ hc
            · subst hst1
              exact est_transport st _ rfl rfl rfl (hE he)
          exact ih st1 est (inv_stepEvent st st1 _ hInv hs) hE1 h1
    | tagClose t =>
      cases hs : stepEvent st (Event.tagClose t) with
      | error err =>
        have he := handle_endtag_error st t err hs
        subst he
        refine ⟨fun hcon => ?_, fun hcon => ?_, fun hcon => ?_⟩ <;> simp at hcon
      | ok st1 =>
        have h1 : estOKFrom st1 est es = true := by
          rw [estOK_cons_close, hs] at hok
          exact hok
        have hE1 : est = true → EstFacts st1 := by
          intro he
          obtain ⟨a, rest, -, hst1⟩ := handle_endtag_cases st st1 t hs
          subst hst1
          exact est_transport st _ rfl rfl rfl (hE he)
        exact ih st1 est (inv_stepEvent st st1 _ hInv hs) hE1 h1
    | text d =>
      cases hs : stepEvent st (Event.text d) with
      | error err =>
        have hcheck : (!(elifFires st) || est) = true := by
          rw [estOK_cons_text, Bool.and_eq_true, hs] at hok
          exact hok.1
        have hEm : elifFires st = true → EstFacts st := by
          intro hf
          rw [hf] at hcheck
          simp at hcheck
          exact hE hcheck
        have hcl := text_error_classify st d err hInv hEm hs
        refine ⟨fun hcon => ?_, fun hcon => ?_, fun hcon => ?_⟩
        · simp at hcon; exact hcl.1 hcon
        · simp at hcon; exact hcl.2.1 hcon
        · simp at hcon; exact hcl.2.2 hcon
      | ok st1 =>
        have hh : handle_data st d = .ok st1 := hs
        have h1 : estOKFrom st1
            (if st.currentTags.head? = some "span" ∧ st.state = Mode.item ∧ (itemMatch d).isSome
             then true else est) es = true := by
          rw [estOK_cons_text, Bool.and_eq_true, hs] at hok
          exact hok.2
        cases hT : st.currentTags with
        | nil =>
          have hcf : ¬(st.currentTags.head? = some "span" ∧ st.state = Mode.item ∧
              (itemMatch d).isSome) := by
            rintro ⟨hh', -⟩
            rw [hT] at hh'
            simp at hh'
          rw [if_neg hcf] at h1
          have hst1 : st1 = st := by
            have h' := hh
            rw [handle_data_nil st d hT] at h'
            injection h' with h'
            exact h'.symm
          subst hst1
          exact ih st1 est (inv_stepEvent _ _ _ hInv hs) hE h1
        | cons tag rest =>
          obtain ⟨st3, st4, st5, st6, h3, h4, h5, h6, h7⟩ :=
            handle_data_ok_decomp st st1 d tag rest hT hh
          have htm := stages_tm tag d rest st st3 st4 st5 st6 hT h3 h4 h5 h6
          have hEstages : est = true → EstFacts st6 := fun he =>
            est_stages tag d st st3 st4 st5 st6 h3 h4 h5 h6 (hE he)
          rcases dIf7_cases tag d st6 st1 h7 with
            ⟨g, p, it, htag, hst6, hm, hp, hit, hst1⟩ |
            ⟨htag, hst6, hm, hst1⟩ |
            ⟨p, k, it, v, hnot, hspan, hp, hk, hit, hv, hst1⟩ |
            ⟨hnot, hnospan, hst1⟩
          · have hE1 : ∀ b : Bool, b = true → EstFacts st1 := fun _ _ => by
              subst hst1
              exact ⟨p, pyStrip g.1, setKV it (pyStrip g.1) (pyStrip g.2), hp, rfl,
                getItemAt_modifyItemAt_self st6.output p _ it hit,
                by rw [lookupKV_setKV_self]; rfl⟩
            exact ih st1 _ (inv_stepEvent st st1 _ hInv hs) (hE1 _) h1
          · have hcf : ¬(st.currentTags.head? = some "span" ∧ st.state = Mode.item ∧
                (itemMatch d).isSome) := by
              rintro ⟨-, -, hm'⟩
              rw [hm] at hm'
              simp at hm'
            rw [if_neg hcf] at h1
            subst hst1
            exact ih st1 est (inv_stepEvent st st1 _ hInv hs) hEstages h1
          · have hE1 : ∀ b : Bool, b = true → EstFacts st1 := fun _ _ => by
              subst hst1
              exact ⟨p, k, setKV it k (v ++ d), hp, hk,
                getItemAt_modifyItemAt_self st6.output p _ it hit,
                by rw [lookupKV_setKV_self]; rfl⟩
            exact ih st1 _ (inv_stepEvent st st1 _ hInv hs) (hE1 _) h1
          · have hcf : ¬(st.currentTags.head? = some "span" ∧ st.state = Mode.item ∧
                (itemMatch d).isSome) := by
              rintro ⟨hh', -, -⟩
              rw [hT] at hh'
              simp at hh'
              apply hnospan
              rw [htm.1, hT, hh']
              exact List.mem_cons_self _ _
            rw [if_neg hcf] at h1
            subst hst1
            exact ih st1 est (inv_stepEvent st st1 _ hInv hs) hEstages h1

/-- C2 (amended): a non-matching text whose innermost tag is a span in Item
mode is silently ignored even with no current key established (the run does
NOT fail); the fatal missing-key abort (`AttributeError: current_key`)
instead occurs when a continuation text reaches the `elif "span" in
self.current_tags` branch — innermost tag not one of the structural tags,
a span still open — with a current item but no current key; and along any
run from the initial state in which every text event reaching that `elif`
branch is preceded, since its item was created, by a matching `key: value`
span (the `estOKFrom` condition), the parser never aborts with a missing
`current_item`/`current_key` attribute or a missing item key. -/
theorem C2_no_key_handling :
    (∀ (st : PState) (rest : List String) (d : String),
      st.currentTags = "span" :: rest → st.state = Mode.item →
      itemMatch d = none → st.currentKey = none →
      handle_data st d = .ok st) ∧
    (∀ (st : PState) (tag : String) (rest : List String) (d : String),
      st.currentTags = tag :: rest →
      tag ∉ ["h1", "p", "h2", "blockquote", "h3", "span"] →
      "span" ∈ rest → st.currentItem.isSome = true → st.currentKey = none →
      handle_data st d = .error (.attrError "current_key")) ∧
    (∀ es : List Event, estOKFrom initState false es = true →
      runFrom initState es ≠ .error (.attrError "current_item") ∧
      runFrom initState es ≠ .error (.attrError "current_key") ∧
      runFrom initState es ≠ .error .keyError) := by
  refine ⟨?_, ?_, ?_⟩
  · intro st rest d hT hM hMatch hK
    obtain ⟨o, tags, m, cs, cc, ci, ck⟩ := st
    simp only at hT hM hK
    subst hT hM hK
    simp [handle_data, dIf1, dIf2, dIf3, dIf4, dIf5, dIf6, dIf7, hMatch]
  · intro st tag rest d hT hNot hMem hI hK
    simp only [List.mem_cons, List.mem_singleton] at hNot
    push_neg at hNot
    obtain ⟨n1, n2, n3, n4, n5, n6⟩ := hNot
    obtain ⟨p, hp⟩ := Option.isSome_iff_exists.mp hI
    obtain ⟨o, tags, m, cs, cc, ci, ck⟩ := st
    simp only at hT hp hK
    subst hT hp hK
    simp [handle_data, dIf1, dIf2, dIf3, dIf4, dIf5, dIf6, dIf7,
          n1, n2, n3, n4, n5, n6, hMem]
  · intro es hok
    exact estOK_no_key_err es initState false inv_initState
      (fun hcon => absurd hcon (by decide)) hok

/-- C2 witness: the silent-drop rule, the fatal missing-key continuation,
and the trace condition applied to a concrete stream. -/
theorem C2_no_key_handling_witness :
    handle_data w2StateS " Bar" = .ok w2StateS ∧
    handle_data w2State " Bar" = .error (.attrError "current_key") ∧
    estOKFrom initState false c1Stream = true ∧
    runFrom initState c1Stream ≠ .error (.attrError "current_key") := by
  refine ⟨?_, ?_, by decide, ?_⟩
  · exact C2_no_key_handling.1 w2StateS ["li", "ul"] " Bar" rfl rfl (by decide) rfl
  · exact C2_no_key_handling.2.1 w2State "b" ["span", "li", "ul"] " Bar" rfl
      (by decide) (by decide) rfl rfl
  · exact (C2_no_key_handling.2.2 c1Stream (by decide)).2.1

/-! ## C3: the scope-freezing frame -/

/-- C3 (counterexample): after the second step heading of `c3Prefix` the
first step is a closed scope holding `items[0] = {"title": "Foo"}` (and the
document has two steps), yet the continuation events of `c3Stream` — a text
inside `<span><b>…` arriving in Step mode — mutate that old item to
`{"title": "FooBar"}`: entities are NOT immutable once the pass moves past
their enclosing scope. -/
theorem C3_counterexample :
    itemOfRun (runEvents c3Prefix) (0, 0, 0) = some [("title", "Foo")] ∧
    (stepsOfRun (runEvents c3Prefix)).map (fun ol => ol.map List.length) = some (some 2) ∧
    itemOfRun (runEvents c3Stream) (0, 0, 0) = some [("title", "FooBar")] :=
  ⟨by decide, by decide, by decide⟩

theorem colsAtO_congr_step (o o' : Output) (i : Nat)
    (h : (oSteps o')[i]? = (oSteps o)[i]?) : colsAtO o' i = colsAtO o i := by
  unfold colsAtO
  rw [h]

theorem colsLenAt_zero_of_no_steps (o : Output) (h : nSteps o = 0) (i : Nat) :
    colsLenAt o i = 0 := by
  have h' : (oSteps o).length = 0 := h
  have hq : (oSteps o)[i]? = none := by
    apply List.getElem?_eq_none
    rw [h']
    exact Nat.zero_le _
  rw [colsLenAt, colsAtO, hq]
  rfl

theorem frameO_refl (o : Output) : FrameO o o :=
  ⟨le_refl _, fun _ _ => rfl, fun _ _ => rfl, le_refl _⟩

theorem frameO_of_steps_eq (o o' : Output) (h : o'.steps = o.steps) : FrameO o o' := by
  have hs : oSteps o' = oSteps o := by rw [oSteps, oSteps, h]
  refine ⟨le_of_eq (by rw [nSteps, nSteps, hs]), fun i _ => by rw [hs], fun j _ => ?_, ?_⟩
  · rw [colsAtO_congr_step o o' (lastIdx o) (by rw [hs])]
  · exact le_of_eq (by rw [colsLenAt, colsLenAt, colsAtO_congr_step o o' (lastIdx o) (by rw [hs])])

theorem frameO_of_parts (o o' : Output)
    (h1 : nSteps o ≤ nSteps o')
    (h2 : ∀ i, i + 1 < nSteps o → (oSteps o')[i]? = (oSteps o)[i]?)
    (h3 : colsAtO o' (lastIdx o) = colsAtO o (lastIdx o)) :
    FrameO o o' :=
  ⟨h1, h2, fun _ _ => by rw [h3], le_of_eq (by rw [colsLenAt, colsLenAt, h3])⟩

theorem frameO_trans (o o' o'' : Output) (h1 : FrameO o o') (h2 : FrameO o' o'') :
    FrameO o o'' := by
  obtain ⟨a1, b1, c1, d1⟩ := h1
  obtain ⟨a2, b2, c2, d2⟩ := h2
  refine ⟨le_trans a1 a2, ?_, ?_, ?_⟩
  · intro i hi
    rw [b2 i (lt_of_lt_of_le hi a1), b1 i hi]
  · intro j hj
    rcases Nat.lt_or_ge (nSteps o) 1 with hz | hz
    · rw [colsLenAt_zero_of_no_steps o (Nat.lt_one_iff.mp hz)] at hj
      omega
    · have hL : lastIdx o + 1 = nSteps o := by rw [lastIdx]; omega
      rcases Nat.eq_or_lt_of_le a1 with heq | hlt
      · have hLL : lastIdx o' = lastIdx o := by rw [lastIdx, lastIdx, heq]
        have hj' : j + 1 < colsLenAt o' (lastIdx o') := by
          rw [hLL]
          exact lt_of_lt_of_le hj d1
        have hcc := c2 j hj'
        rw [hLL] at hcc
        exact hcc.trans (c1 j hj)
      · have hfrozen : (oSteps o'')[lastIdx o]? = (oSteps o')[lastIdx o]? :=
          b2 (lastIdx o) (by omega)
        rw [colsAtO_congr_step o' o'' (lastIdx o) hfrozen]
        exact c1 j hj
  · rcases Nat.lt_or_ge (nSteps o) 1 with hz | hz
    · rw [colsLenAt_zero_of_no_steps o (Nat.lt_one_iff.mp hz)]
      exact Nat.zero_le _
    · have hL : lastIdx o + 1 = nSteps o := by rw [lastIdx]; omega
      rcases Nat.eq_or_lt_of_le a1 with heq | hlt
      · have hLL : lastIdx o' = lastIdx o := by rw [lastIdx, lastIdx, heq]
        refine le_trans d1 ?_
        have hd2 := d2
        rw [hLL] at hd2
        exact hd2
      · have hfrozen : (oSteps o'')[lastIdx o]? = (oSteps o')[lastIdx o]? :=
          b2 (lastIdx o) (by omega)
        exact le_trans d1 (le_of_eq (by
          rw [colsLenAt, colsLenAt, colsAtO_congr_step o' o'' (lastIdx o) hfrozen]))

/-- Modifying the last column of the last step is a frame: every other step
and every other column of the last step is untouched. -/
theorem frameO_modifyColumn_lastcol (o : Output) (fc : Column → Column) :
    FrameO o (modifyColumn o (lastIdx o) (lastColIdx o) fc) := by
  refine ⟨le_of_eq (nSteps_modifyColumn _ _ _ _).symm, ?_, ?_,
    le_of_eq (colsLenAt_modifyColumn _ _ _ _ _).symm⟩
  · intro i hi
    have hne : i ≠ lastIdx o := by rw [lastIdx]; omega
    simp only [modifyColumn]
    rw [oSteps_modifyStep, getq_updAt_ne _ _ _ _ hne]
  · intro j hj
    have hne : j ≠ lastColIdx o := by rw [lastColIdx]; omega
    rw [colsAtO_modifyColumn, if_pos rfl, getq_updAt_ne _ _ _ _ hne]

/-- Appending a column to the last step is a frame. -/
theorem frameO_append_col (o : Output) (s : Step) (newc : Column)
    (hs : (oSteps o)[lastIdx o]? = some s) :
    FrameO o (modifyStep o (lastIdx o) (fun s' =>
      { s' with columns := some ((s.columns.getD []) ++ [newc]) })) := by
  have hcself : colsAtO (modifyStep o (lastIdx o) (fun s' =>
      { s' with columns := some ((s.columns.getD []) ++ [newc]) })) (lastIdx o) =
      (s.columns.getD []) ++ [newc] := by
    rw [colsAtO_modifyStep_self o (lastIdx o) (fun s' =>
      { s' with columns := some ((s.columns.getD []) ++ [newc]) }) s hs]
    rfl
  have hbase : colsAtO o (lastIdx o) = s.columns.getD [] := by
    unfold colsAtO
    simp only [hs]
  refine ⟨le_of_eq (nSteps_modifyStep _ _ _).symm, ?_, ?_, ?_⟩
  · intro i hi
    have hne : i ≠ lastIdx o := by rw [lastIdx]; omega
    rw [oSteps_modifyStep, getq_updAt_ne _ _ _ _ hne]
  · intro j hj
    rw [hcself]
    have hlt : j < (s.columns.getD []).length := by
      rw [colsLenAt, hbase] at hj
      omega
    rw [List.getElem?_append_left hlt, hbase]
  · rw [colsLenAt, colsLenAt, hcself, hbase]
    simp

/-- Appending a new step is a frame. -/
theorem frameO_append_step (o : Output) (l : List Step) (s' : Step) (hl : o.steps = some l) :
    FrameO o { o with steps := some (l ++ [s']) } := by
  have hso : oSteps o = l := by rw [oSteps, hl]; rfl
  have hso' : oSteps { o with steps := some (l ++ [s']) } = l ++ [s'] := rfl
  have hfr : 1 ≤ nSteps o →
      (oSteps { o with steps := some (l ++ [s']) })[lastIdx o]? = (oSteps o)[lastIdx o]? := by
    intro hz
    have h1 : nSteps o = l.length := by rw [nSteps, hso]
    rw [h1] at hz
    have hlt : lastIdx o < l.length := by
      rw [lastIdx, h1]
      omega
    rw [hso', hso, List.getElem?_append_left hlt]
  refine ⟨?_, ?_, ?_, ?_⟩
  · rw [nSteps, nSteps, hso, hso']
    simp
  · intro i hi
    rw [nSteps, hso] at hi
    rw [hso', hso, List.getElem?_append_left (by omega)]
  · intro j hj
    rcases Nat.lt_or_ge (nSteps o) 1 with hz | hz
    · rw [colsLenAt_zero_of_no_steps o (Nat.lt_one_iff.mp hz)] at hj
      omega
    · rw [colsAtO_congr_step o _ (lastIdx o) (hfr hz)]
  · rcases Nat.lt_or_ge (nSteps o) 1 with hz | hz
    · rw [colsLenAt_zero_of_no_steps o (Nat.lt_one_iff.mp hz)]
      exact Nat.zero_le _
    · exact le_of_eq (by rw [colsLenAt, colsLenAt, colsAtO_congr_step o _ (lastIdx o) (hfr hz)])

/-- A columns-preserving modification of the last step is a frame. -/
theorem frameO_modifyStep_keep_last (o : Output) (f : Step → Step)
    (hf : ∀ s, (f s).columns = s.columns) :
    FrameO o (modifyStep o (lastIdx o) f) := by
  refine frameO_of_parts o _ (le_of_eq (nSteps_modifyStep _ _ _).symm) ?_
    (colsAtO_modifyStep_keep o _ f hf _)
  intro i hi
  have hne : i ≠ lastIdx o := by rw [lastIdx]; omega
  rw [oSteps_modifyStep, getq_updAt_ne _ _ _ _ hne]

theorem frame_starttag (st st1 : PState) (t : String)
    (hInv : Inv st) (h : handle_starttag st t = .ok st1) :
    FrameO st.output st1.output := by
  rcases handle_starttag_cases st st1 t h with
    ⟨i, j, col, -, hmode, hij, -, rfl⟩ | ⟨-, rfl⟩
  · obtain ⟨hcc, -, -⟩ := hInv.2.2.1 hmode
    rw [hcc] at hij
    injection hij with hij
    have hfst : lastIdx st.output = i := congrArg Prod.fst hij
    have hsnd : lastColIdx st.output = j := congrArg Prod.snd hij
    have hfr := frameO_modifyColumn_lastcol st.output (fun c =>
      { c with items := some ((col.items.getD []) ++ [([] : Item)]) })
    rw [hfst, hsnd] at hfr
    exact hfr
  · exact frameO_refl _

theorem frame_dIf12 (tag d : String) (st : PState) :
    FrameO st.output (dIf2 tag d (dIf1 tag d st)).output :=
  frameO_of_steps_eq _ _ (dIf12_steps tag d st)

theorem frame_dIf3_ok (tag d : String) (st st' : PState)
    (h : dIf3 tag d st = .ok st') : FrameO st.output st'.output := by
  rcases dIf3_cases tag d st st' h with ⟨l, -, hl, rfl⟩ | ⟨-, rfl⟩
  · exact frameO_append_step st.output l (newStepOf d) hl
  · exact frameO_refl _

theorem frame_dIf4_ok (tag d : String) (st st' : PState)
    (h : dIf4 tag d st = .ok st') (hInv : Inv st) : FrameO st.output st'.output := by
  rcases dIf4_cases tag d st st' h with ⟨i, -, hstate, hcs, rfl⟩ | ⟨-, rfl⟩
  · have hne : st.state ≠ Mode.title := by rw [hstate]; decide
    obtain ⟨hcs', -⟩ := hInv.2.1 hne
    rw [hcs'] at hcs
    injection hcs with hcs
    have hfr := frameO_modifyStep_keep_last st.output (fun s => { s with title := d })
      (fun s => rfl)
    rw [hcs] at hfr
    exact hfr
  · exact frameO_refl _

theorem frame_dIf5_ok (tag d : String) (st st' : PState)
    (h : dIf5 tag d st = .ok st') (hInv : Inv st) : FrameO st.output st'.output := by
  rcases dIf5_cases tag d st st' h with ⟨i, -, hstate, hcs, rfl⟩ | ⟨-, rfl⟩
  · have hne : st.state ≠ Mode.title := by rw [hstate]; decide
    obtain ⟨hcs', -⟩ := hInv.2.1 hne
    rw [hcs'] at hcs
    injection hcs with hcs
    have hfr := frameO_modifyStep_keep_last st.output (fun s =>
      { s with description := some ((s.description.getD "") ++ d ++ "\n") }) (fun s => rfl)
    rw [hcs] at hfr
    exact hfr
  · exact frameO_refl _

theorem frame_dIf6_ok (tag d : String) (st st' : PState)
    (h : dIf6 tag d st = .ok st') (hInv : Inv st) : FrameO st.output st'.output := by
  rcases dIf6_cases tag d st st' h with ⟨i, s, -, hstate, hcs, hgs, rfl⟩ | ⟨-, rfl⟩
  · have hne : st.state ≠ Mode.title := by rw [hstate]; decide
    obtain ⟨hcs', -⟩ := hInv.2.1 hne
    rw [hcs'] at hcs
    injection hcs with hcs
    have hgs' : (oSteps st.output)[lastIdx st.output]? = some s := by
      rw [hcs]
      exact hgs
    have hfr := frameO_append_col st.output s (newColOf d) hgs'
    rw [hcs] at hfr
    exact hfr
  · exact frameO_refl _

theorem frame_dIf7_ok (tag d : String) (st st' : PState)
    (h : dIf7 tag d st = .ok st') (hInv : Inv st)
    (hsp : "span" ∈ st.currentTags → st.state = Mode.item) :
    FrameO st.output st'.output := by
  rcases dIf7_cases tag d st st' h with
    ⟨g, p, it, -, hstate, -, hp, -, rfl⟩ | ⟨-, -, -, rfl⟩ |
    ⟨p, k, it, v, -, hspan, hp, -, -, -, rfl⟩ | ⟨-, -, rfl⟩
  · obtain ⟨hp', -⟩ := hInv.2.2.2 hstate
    rw [hp'] at hp
    injection hp with hp
    have hfst : lastIdx st.output = p.1 := congrArg Prod.fst hp
    have hsnd : lastColIdx st.output = p.2.1 := congrArg (fun x => x.2.1) hp
    have hfr := frameO_modifyColumn_lastcol st.output (fun c =>
      { c with items := c.items.map (fun l => updAt l p.2.2
          (fun it' => setKV it' (pyStrip g.1) (pyStrip g.2))) })
    rw [hfst, hsnd] at hfr
    exact hfr
  · exact frameO_refl _
  · obtain ⟨hp', -⟩ := hInv.2.2.2 (hsp hspan)
    rw [hp'] at hp
    injection hp with hp
    have hfst : lastIdx st.output = p.1 := congrArg Prod.fst hp
    have hsnd : lastColIdx st.output = p.2.1 := congrArg (fun x => x.2.1) hp
    have hfr := frameO_modifyColumn_lastcol st.output (fun c =>
      { c with items := c.items.map (fun l => updAt l p.2.2
          (fun it' => setKV it' k (v ++ d))) })
    rw [hfst, hsnd] at hfr
    exact hfr
  · exact frameO_refl _

theorem frame_handle_data (st st1 : PState) (d : String)
    (hInv : Inv st) (hsafe : safeEvt st (Event.text d) = true)
    (h : handle_data st d = .ok st1) : FrameO st.output st1.output := by
  cases hT : st.currentTags with
  | nil =>
    have h' := h
    rw [handle_data_nil st d hT] at h'
    injection h' with h'
    rw [← h']
    exact frameO_refl _
  | cons tag rest =>
    obtain ⟨st3, st4, st5, st6, h3, h4, h5, h6, h7⟩ :=
      handle_data_ok_decomp st st1 d tag rest hT h
    have hInv2 : Inv (dIf2 tag d (dIf1 tag d st)) :=
      inv_dIf2 _ _ _ (inv_dIf1 _ _ _ hInv)
    have hInv3 : Inv st3 := inv_dIf3_ok _ _ _ _ h3 hInv2
    have hInv4 : Inv st4 := inv_dIf4_ok _ _ _ _ h4 hInv3
    have hInv5 : Inv st5 := inv_dIf5_ok _ _ _ _ h5 hInv4
    have hInv6 : Inv st6 := inv_dIf6_ok _ _ _ _ h6 hInv5
    have htm := stages_tm tag d rest st st3 st4 st5 st6 hT h3 h4 h5 h6
    have hsp6 : "span" ∈ st6.currentTags → st6.state = Mode.item := by
      intro hmem6
      have hmem : "span" ∈ st.currentTags := htm.1 ▸ hmem6
      have hsafe' := hsafe
      simp only [safeEvt] at hsafe'
      rw [Bool.or_eq_true] at hsafe'
      rcases hsafe' with hno | hyes
      · simp [hmem] at hno
      · rw [Bool.and_eq_true] at hyes
        have hitem : st.state = Mode.item := of_decide_eq_true hyes.1
        have hh2 : ¬(st.currentTags.head? = some "h2") := fun hcon => by
          have h2' := hyes.2
          simp [hcon] at h2'
        have htag2 : ¬(tag = "h2") := fun hcon => hh2 (by rw [hT, hcon]; rfl)
        have hpm : postMode st.currentTags st.state = Mode.item := by
          unfold postMode
          rw [hT]
          simp only [List.head?_cons]
          rw [if_neg htag2, hitem]
          simp
        rw [htm.2, hpm]
    exact frameO_trans _ _ _ (frame_dIf12 tag d st)
      (frameO_trans _ _ _ (frame_dIf3_ok _ _ _ _ h3)
        (frameO_trans _ _ _ (frame_dIf4_ok _ _ _ _ h4 hInv3)
          (frameO_trans _ _ _ (frame_dIf5_ok _ _ _ _ h5 hInv4)
            (frameO_trans _ _ _ (frame_dIf6_ok _ _ _ _ h6 hInv5)
              (frame_dIf7_ok _ _ _ _ h7 hInv6 hsp6)))))

theorem frame_stepEvent (st st1 : PState) (e : Event)
    (hInv : Inv st) (hsafe : safeEvt st e = true)
    (h : stepEvent st e = .ok st1) : FrameO st.output st1.output := by
  cases e with
  | tagOpen t => exact frame_starttag st st1 t hInv h
  | tagClose t =>
    obtain ⟨a, rest, -, rfl⟩ := handle_endtag_cases st st1 t h
    exact frameO_refl _
  | text d => exact frame_handle_data st st1 d hInv hsafe h

theorem safeFrom_cons (st : PState) (e : Event) (es : List Event) :
    safeFrom st (e :: es) =
      (safeEvt st e && (match stepEvent st e with
        | .ok st' => safeFrom st' es
        | .error _ => true)) := rfl

theorem frame_runFrom (es : List Event) (st st' : PState)
    (hInv : Inv st) (hsafe : safeFrom st es = true)
    (h : runFrom st es = .ok st') : FrameO st.output st'.output := by
  induction es generalizing st with
  | nil =>
    rw [runFrom] at h
    injection h with h
    rw [← h]
    exact frameO_refl _
  | cons e es ih =>
    rw [runFrom] at h
    cases hs : stepEvent st e with
    | error err =>
      rw [hs] at h
      simp at h
    | ok st1 =>
      rw [hs] at h
      rw [safeFrom_cons, Bool.and_eq_true] at hsafe
      have hsafe2 : safeFrom st1 es = true := by
        have hmatch := hsafe.2
        rw [hs] at hmatch
        exact hmatch
      exact frameO_trans _ _ _ (frame_stepEvent st st1 e hInv hsafe.1 hs)
        (ih st1 (inv_stepEvent st st1 e hInv hs) hsafe2 h)

/-- C3 (amended): along any successful run all of whose text events are
safe — whenever a span is open the parser is still in Item mode with the
innermost tag not a fresh step heading (`safeFrom`) — closed scopes are
frozen: every step other than the last existing one is preserved verbatim
(with all its columns and items), within the last step every column other
than the last is preserved verbatim, and steps are only appended.  Without
the safety condition the claim fails (see the counterexample): the
continuation branch can mutate an item of an already closed scope. -/
theorem C3_scope_freeze (es : List Event) (st st' : PState)
    (hInv : Inv st) (hsafe : safeFrom st es = true)
    (h : runFrom st es = .ok st') :
    (∀ i, i + 1 < nSteps st.output → (oSteps st'.output)[i]? = (oSteps st.output)[i]?) ∧
    (∀ j, j + 1 < colsLenAt st.output (lastIdx st.output) →
      (colsAtO st'.output (lastIdx st.output))[j]? =
        (colsAtO st.output (lastIdx st.output))[j]?) ∧
    nSteps st.output ≤ nSteps st'.output := by
  obtain ⟨h1, h2, h3, -⟩ := frame_runFrom es st st' hInv hsafe h
  exact ⟨h2, h3, h1⟩

/-- C3 witness: the frame theorem applied to the (safe) prefix stream. -/
theorem C3_scope_freeze_witness :
    (∀ i, i + 1 < nSteps initState.output →
      (oSteps c3PrefixFinal.output)[i]? = (oSteps initState.output)[i]?) ∧
    nSteps initState.output ≤ nSteps c3PrefixFinal.output := by
  have hfr := C3_scope_freeze c3Prefix initState c3PrefixFinal
    inv_initState (by decide) (by rfl)
  exact ⟨hfr.1, hfr.2.2⟩

end GenYaml
